import Mathlib

/- Verification of the signal-graph synthesis engine.

   This file is a shallow embedding of the repository's core:
   - src/fm.rs : the pull-based stream generators/combinators (`Stream` and
     the structs it wraps), embedded as an inductive type `Fm.Stream` whose
     constructors carry exactly the fields of the corresponding Rust structs,
     and a step function `Fm.Stream.next` that mirrors each `Iterator::next`
     implementation (Rust's `&mut self` mutation becomes explicit state
     passing: `next` returns the emitted `Option` sample and the new state).
   - src/app.rs : the typed graph model and the memoized recursive evaluator
     (`evaluate_node`, `evaluate_input`, `populate_output`), embedded over an
     explicit list-based graph and an association-list output cache, with a
     fuel parameter standing for the (unbounded) Rust call stack: a `none`
     result means the fuel ran out, i.e. the Rust code is still recursing.

   Idealizations, stated once here:
   - f32 arithmetic is idealized as exact arithmetic in a linear ordered
     field `α` (instantiated with ℚ for concrete witnesses).
   - The library functions `f32::sin`, the seeded Perlin noise and
     `rand::random` are abstracted into an oracle structure `Fm.Ops`,
     since no claim depends on their analytic values; `PI` is `Ops.pi`.
   - u32 sample counters are idealized as ℕ (no claim exercises the
     2^32 wrap-around, which in f32 is below the cast's precision anyway).
   - `rand::random` is nondeterministic; the embedding reads successive
     values from the oracle `Ops.rand`, indexed by an extra counter field
     added to the `whiteNoise` state (the only deviation from the struct
     fields of the source, and no claim touches it).
   - Rust panics (slotmap indexing, `.expect`) are embedded as the
     distinguished error values `nodePanic` / `cachePanic`. -/

namespace Fm

/-- Oracle bundle for the external math functions used by src/fm.rs:
`sin` and `PI` from the float library, the seeded Perlin noise function
(`noise::Perlin::new(69)`), and the `rand::random` draw sequence. -/
structure Ops (α : Type) where
  sin : α → α
  pi : α
  perlin : α → α
  rand : ℕ → α

variable {α : Type} [LinearOrderedField α] [FloorRing α]

/-- Truncation toward zero, as Rust's float remainder uses. -/
def trunc (x : α) : ℤ := if 0 ≤ x then ⌊x⌋ else ⌈x⌉

/-- Rust's `%` on floats: remainder with the sign of the dividend,
`x % y = x - y * trunc (x / y)`. -/
def rem (x y : α) : α := x - y * (trunc (x / y) : α)

/-- `lerp` from src/fm.rs:565. -/
def lerp (a b f : α) : α := a * (1 - f) + b * f

/-- `square_wave` from src/fm.rs:170-173. -/
def square_wave (x : α) : α := if rem x 1 ≤ 1 / 2 then 1 else -1

/-- `triangle_wave` from src/fm.rs:232-234. -/
def triangle_wave (x : α) : α := 4 * |x + 1 / 4 - (⌊x + 3 / 4⌋ : α)| - 1

/-- `sawtooth_wave` from src/fm.rs:292-294. -/
def sawtooth_wave (x : α) : α := rem x 1

/-- The gain block of `Envelope::next` (src/fm.rs:574-579), extracted as a
named function of the ADSR parameters and the time `t`. -/
def envGain (a ad dd s sd rd t : α) : α :=
  if t < ad then lerp 0 a (t / ad)
  else if t < ad + dd then lerp a s ((t - ad) / dd)
  else if t < ad + dd + sd then s
  else if t < ad + dd + sd + rd then lerp s 0 ((t - ad - dd - sd) / rd)
  else 0

/-- The `Stream` enum of src/fm.rs with each wrapped struct's fields inlined
into its constructor, in the source's declaration order (`Box<Stream>`
sub-streams become direct recursive occurrences — the Rust value is already
an owned tree).  The `silence` constructor is Modelled from the spec:
`fm::Silence` is referenced throughout src/app.rs (node templates,
`all_kinds`, the evaluator) but its definition is not among the given
sources; per the spec it "produces silence forever": the sample 0 on every
call, never ending. -/
inductive Stream (α : Type) : Type where
  | sineWave (frequency : α) (sample_rate : ℕ) (current_sample : ℕ) (phase_shift : α)
  | squareWave (frequency : α) (sample_rate : ℕ) (current_sample : ℕ) (phase_shift : α)
  | triangleWave (frequency : α) (sample_rate : ℕ) (current_sample : ℕ) (phase_shift : α)
  | sawtoothWave (frequency : α) (sample_rate : ℕ) (current_sample : ℕ) (phase_shift : α)
  | modulatedSineWave (frequency : α) (sample_rate : ℕ) (modulator : Stream α) (current_sample : α)
  | mix (sample_rate : ℕ) (stream_a : Stream α) (stream_b : Stream α) (p : α)
  | const (sample_rate : ℕ) (val : α)
  | empty (sample_rate : ℕ)
  | envelope (a ad dd s sd rd : α) (stream : Stream α) (sample_rate : ℕ) (current_sample : ℕ)
  | perlin (scale : α) (sample_rate : ℕ) (current_sample : ℕ)
  | whiteNoise (sample_rate : ℕ) (rng_index : ℕ)
  | add (sample_rate : ℕ) (stream_a : Stream α) (stream_b : Stream α)
  | multiply (sample_rate : ℕ) (stream_a : Stream α) (stream_b : Stream α)
  | silence (sample_rate : ℕ)
  deriving Repr, DecidableEq

/-- One pull: `Iterator::next` of every stream kind, mirroring src/fm.rs
arm by arm; returns the emitted sample (if any) and the advanced state. -/
def Stream.next (ops : Ops α) : Stream α → Option α × Stream α
  | sineWave frequency sample_rate current_sample phase_shift =>
      (some (ops.sin (((current_sample : α) + phase_shift) * 2 * ops.pi * frequency / (sample_rate : α))),
       sineWave frequency sample_rate (current_sample + 1) phase_shift)
  | squareWave frequency sample_rate current_sample phase_shift =>
      (some (square_wave (((current_sample : α) + phase_shift) * frequency / (sample_rate : α))),
       squareWave frequency sample_rate (current_sample + 1) phase_shift)
  | triangleWave frequency sample_rate current_sample phase_shift =>
      (some (triangle_wave (((current_sample : α) + phase_shift) * frequency / (sample_rate : α))),
       triangleWave frequency sample_rate (current_sample + 1) phase_shift)
  | sawtoothWave frequency sample_rate current_sample phase_shift =>
      (some (sawtooth_wave (((current_sample : α) + phase_shift) * frequency / (sample_rate : α))),
       sawtoothWave frequency sample_rate (current_sample + 1) phase_shift)
  | modulatedSineWave frequency sample_rate modulator current_sample =>
      match modulator.next ops with
      | (none, m') => (none, modulatedSineWave frequency sample_rate m' current_sample)
      | (some a, m') =>
          (some (1 * ops.sin (current_sample * 2 * ops.pi * frequency / (sample_rate : α))),
           modulatedSineWave frequency sample_rate m'
             (rem (current_sample + 1 + a) (sample_rate : α)))
  | mix sample_rate stream_a stream_b p =>
      match stream_a.next ops with
      | (none, a') => (none, mix sample_rate a' stream_b p)
      | (some a, a') =>
          match stream_b.next ops with
          | (none, b') => (none, mix sample_rate a' b' p)
          | (some b, b') => (some (p * a + (1 - p) * b), mix sample_rate a' b' p)
  | const sample_rate val => (some val, const sample_rate val)
  | empty sample_rate => (none, empty sample_rate)
  | envelope a ad dd s sd rd stream sample_rate current_sample =>
      match stream.next ops with
      | (none, st') => (none, envelope a ad dd s sd rd st' sample_rate (current_sample + 1))
      | (some sample, st') =>
          (some (sample * envGain a ad dd s sd rd ((current_sample : α) / (sample_rate : α))),
           envelope a ad dd s sd rd st' sample_rate (current_sample + 1))
  | perlin scale sample_rate current_sample =>
      (some (ops.perlin ((current_sample : α) * scale / (sample_rate : α)) * 2 - 1),
       perlin scale sample_rate (current_sample + 1))
  | whiteNoise sample_rate rng_index =>
      (some (ops.rand rng_index * 2 - 1), whiteNoise sample_rate (rng_index + 1))
  | add sample_rate stream_a stream_b =>
      match stream_a.next ops with
      | (none, a') => (none, add sample_rate a' stream_b)
      | (some a, a') =>
          match stream_b.next ops with
          | (none, b') => (none, add sample_rate a' b')
          | (some b, b') => (some (a + b), add sample_rate a' b')
  | multiply sample_rate stream_a stream_b =>
      match stream_a.next ops with
      | (none, a') => (none, multiply sample_rate a' stream_b)
      | (some a, a') =>
          match stream_b.next ops with
          | (none, b') => (none, multiply sample_rate a' b')
          | (some b, b') => (some (a * b), multiply sample_rate a' b')
  | silence sample_rate => (some 0, silence sample_rate)

/-- `SineWave::new` (src/fm.rs:95-102), as the `Stream`-wrapped value. -/
def SineWave.new : Stream α := .sineWave 0 44100 0 0

/-- `SquareWave::new` (src/fm.rs:152-159). -/
def SquareWave.new : Stream α := .squareWave 0 44100 0 0

/-- `TriangleWave::new` (src/fm.rs:214-221). -/
def TriangleWave.new : Stream α := .triangleWave 0 44100 0 0

/-- `SawtoothWave::new` (src/fm.rs:274-281). -/
def SawtoothWave.new : Stream α := .sawtoothWave 0 44100 0 0

/-- `Empty::new` (src/fm.rs:496-500). -/
def Empty.new : Stream α := .empty 44100

/-- `ModulatedSineWave::new` (src/fm.rs:336-343). -/
def ModulatedSineWave.new : Stream α := .modulatedSineWave 0 44100 Empty.new 0

/-- `Mix::new` (src/fm.rs:407-414): both operands `Empty`, mix ratio 0.5. -/
def Mix.new : Stream α := .mix 44100 Empty.new Empty.new (1 / 2)

/-- `Const::new` (src/fm.rs:454-459). -/
def Const.new : Stream α := .const 44100 0

/-- `Default for Stream` (src/fm.rs:47-51): `Empty`. -/
def Stream.default : Stream α := Empty.new

/-- `Envelope::new` (src/fm.rs:542-554): a=1.0, ad=0.3, dd=0.3, s=0.6,
sd=2.0, rd=1.0, stream = `Stream::default()` (= `Empty`). -/
def Envelope.new : Stream α :=
  .envelope 1 (3 / 10) (3 / 10) (3 / 5) 2 1 Stream.default 44100 0

/-- `Perlin::new` (src/fm.rs:611-618). -/
def Perlin.new : Stream α := .perlin 1 44100 0

/-- `WhiteNoise::new` (src/fm.rs:656-660). -/
def WhiteNoise.new : Stream α := .whiteNoise 44100 0

/-- `Add::new` (src/fm.rs:709-715). -/
def Add.new : Stream α := .add 44100 Empty.new Empty.new

/-- `Multiply::new` (src/fm.rs:764-770). -/
def Multiply.new : Stream α := .multiply 44100 Empty.new Empty.new

/-- Modelled from the spec: constructor of the missing `Silence` kind
(`fm::Silence::new()` as used by `AllMyNodeTemplates::all_kinds` in
src/app.rs:257). -/
def Silence.new : Stream α := .silence 44100

/-- State after `n` pulls of the stream (each pull advances, whatever the
emitted `Option` was). -/
def Stream.stepN (ops : Ops α) : ℕ → Stream α → Stream α
  | 0, s => s
  | n + 1, s => Stream.stepN ops n (s.next ops).2

/-- Result of the n-th pull (counting from 0): the sample emitted by
`next` after `n` earlier pulls. -/
def Stream.sampleN (ops : Ops α) (n : ℕ) (s : Stream α) : Option α :=
  ((s.stepN ops n).next ops).1

/-- The stream emits a sample on each of its first `k` pulls and returns
`None` on pull `k`: the stream's length is exactly `k`. -/
def FirstNone (ops : Ops α) (s : Stream α) (k : ℕ) : Prop :=
  (∀ i, i < k → (Stream.sampleN ops i s).isSome) ∧ Stream.sampleN ops k s = none

theorem Stream.sampleN_succ (ops : Ops α) (n : ℕ) (s : Stream α) :
    Stream.sampleN ops (n + 1) s = Stream.sampleN ops n (s.next ops).2 := rfl

theorem Stream.stepN_empty (ops : Ops α) (sr : ℕ) :
    ∀ n, Stream.stepN ops n (.empty sr) = (.empty sr : Stream α)
  | 0 => rfl
  | n + 1 => Stream.stepN_empty ops sr n

theorem Stream.stepN_silence (ops : Ops α) (sr : ℕ) :
    ∀ n, Stream.stepN ops n (.silence sr) = (.silence sr : Stream α)
  | 0 => rfl
  | n + 1 => Stream.stepN_silence ops sr n

theorem Stream.stepN_sineWave (ops : Ops α) (f ph : α) (sr : ℕ) :
    ∀ n c, Stream.stepN ops n (.sineWave f sr c ph) = (.sineWave f sr (c + n) ph : Stream α)
  | 0, c => rfl
  | n + 1, c => by
      have h := Stream.stepN_sineWave ops f ph sr n (c + 1)
      simp only [Stream.stepN, Stream.next] at h ⊢
      rw [h]; congr 1; omega

end Fm

/-- Concrete oracle over ℚ used by the closed counterexamples and
witnesses (the claims settled with it do not depend on its values). -/
def opsQ : Fm.Ops ℚ where
  sin := fun x => x
  pi := 3
  perlin := fun x => x
  rand := fun _ => 0

/-- C4: `Empty::next` (src/fm.rs:503-507) returns `None` on every call —
in particular on the very first — while the (spec-modelled) `Silence`
stream returns `Some 0` on every call indefinitely and never returns
`None`: silence forever, as distinct from `Empty` producing nothing. -/
theorem claim_C4_thm {α : Type} [LinearOrderedField α] [FloorRing α]
    (ops : Fm.Ops α) (sr n : ℕ) :
    Fm.Stream.sampleN ops n (.empty sr) = none ∧
    Fm.Stream.sampleN ops n (.silence sr) = some 0 := by
  constructor
  · show ((Fm.Stream.stepN ops n (.empty sr)).next ops).1 = none
    rw [Fm.Stream.stepN_empty]; rfl
  · show ((Fm.Stream.stepN ops n (.silence sr)).next ops).1 = some 0
    rw [Fm.Stream.stepN_silence]; rfl

/-- C8: with `phase_shift = 0`, the n-th pull of a fresh `SineWave`
(src/fm.rs:113-122; `current_sample` starts at 0) returns
`Some (sin (2π·f·n / sr))`: the n-th sample is this closed-form function
of `n`, reproducible without pulling the prior samples. -/
theorem claim_C8_thm {α : Type} [LinearOrderedField α] [FloorRing α]
    (ops : Fm.Ops α) (f : α) (sr n : ℕ) :
    Fm.Stream.sampleN ops n (.sineWave f sr 0 0) =
      some (ops.sin (2 * ops.pi * f * (n : α) / (sr : α))) := by
  show ((Fm.Stream.stepN ops n (.sineWave f sr 0 0)).next ops).1 = _
  rw [Fm.Stream.stepN_sineWave]
  simp only [Fm.Stream.next, Nat.zero_add]
  congr 1
  ring_nf

theorem Fm.Stream.next_envelope_snd {α : Type} [LinearOrderedField α] [FloorRing α]
    (ops : Fm.Ops α) (a ad dd s sd rd : α) (st : Fm.Stream α) (sr cur : ℕ) :
    ((Fm.Stream.envelope a ad dd s sd rd st sr cur).next ops).2 =
      .envelope a ad dd s sd rd ((st.next ops).2) sr (cur + 1) := by
  rcases h : st.next ops with ⟨o, st'⟩
  cases o <;> simp [Fm.Stream.next, h]

theorem Fm.Stream.stepN_envelope {α : Type} [LinearOrderedField α] [FloorRing α]
    (ops : Fm.Ops α) (a ad dd s sd rd : α) (sr : ℕ) :
    ∀ (n : ℕ) (st : Fm.Stream α) (cur : ℕ),
      Fm.Stream.stepN ops n (.envelope a ad dd s sd rd st sr cur) =
        .envelope a ad dd s sd rd (Fm.Stream.stepN ops n st) sr (cur + n)
  | 0, st, cur => rfl
  | n + 1, st, cur => by
      show Fm.Stream.stepN ops n ((Fm.Stream.envelope a ad dd s sd rd st sr cur).next ops).2 = _
      rw [Fm.Stream.next_envelope_snd]
      rw [Fm.Stream.stepN_envelope ops a ad dd s sd rd sr n ((st.next ops).2) (cur + 1)]
      congr 1
      omega

theorem claim_C3_cex : (Fm.Stream.next opsQ Fm.Envelope.new).1 = none := rfl

/-- C3 (amended): `Envelope::next` (src/fm.rs:567-582) pulls its sub-stream
exactly once per call — after n pulls of the envelope the sub-stream has
been stepped exactly n times and the time counter is n higher — and it
returns `Some` of the gain-scaled sample exactly when the sub-stream
yields one.  In particular the sub-stream keeps being pulled after the
gain reaches 0 (the equation holds for every n, in particular past the
release segment), but `Envelope::next` returns `None` exactly when the
sub-stream does, rather than never returning `None`. -/
theorem claim_C3_thm {α : Type} [LinearOrderedField α] [FloorRing α]
    (ops : Fm.Ops α) (a ad dd s sd rd : α) (st : Fm.Stream α) (sr cur n : ℕ) :
    Fm.Stream.stepN ops n (.envelope a ad dd s sd rd st sr cur) =
      .envelope a ad dd s sd rd (Fm.Stream.stepN ops n st) sr (cur + n) ∧
    Fm.Stream.sampleN ops n (.envelope a ad dd s sd rd st sr cur) =
      (Fm.Stream.sampleN ops n st).map
        (fun x => x * Fm.envGain a ad dd s sd rd (((cur + n : ℕ) : α) / (sr : α))) := by
  refine ⟨Fm.Stream.stepN_envelope ops a ad dd s sd rd sr n st cur, ?_⟩
  show ((Fm.Stream.stepN ops n (.envelope a ad dd s sd rd st sr cur)).next ops).1 = _
  rw [Fm.Stream.stepN_envelope]
  rcases h : (Fm.Stream.stepN ops n st).next ops with ⟨o, st'⟩
  cases o with
  | none => simp [Fm.Stream.next, h, Fm.Stream.sampleN]
  | some x => simp [Fm.Stream.next, h, Fm.Stream.sampleN]

/-- C6: `ModulatedSineWave::next` (src/fm.rs:354-365) pulls its modulator
exactly once per call (the new state holds the advanced modulator); if the
modulator returns `None` the call returns `None` and leaves the counter
unchanged — the stream ends exactly when the modulator ends; otherwise it
returns `Some (sin (2π·f·c / sr))` computed with the counter value `c`
held before the update, and afterwards the counter is
`(c + 1 + modulatorSample) % sr` (Rust float remainder `Fm.rem`). -/
theorem claim_C6_thm {α : Type} [LinearOrderedField α] [FloorRing α]
    (ops : Fm.Ops α) (f c : α) (sr : ℕ) (m : Fm.Stream α) :
    Fm.Stream.next ops (.modulatedSineWave f sr m c) =
      match Fm.Stream.next ops m with
      | (none, m') => (none, .modulatedSineWave f sr m' c)
      | (some a, m') =>
          (some (ops.sin (2 * ops.pi * f * c / (sr : α))),
           .modulatedSineWave f sr m' (Fm.rem (c + 1 + a) (sr : α))) := by
  have harg : c * 2 * ops.pi * f / (sr : α) = 2 * ops.pi * f * c / (sr : α) := by ring
  rcases h : Fm.Stream.next ops m with ⟨o, m'⟩
  cases o with
  | none => simp [Fm.Stream.next, h]
  | some a => simp [Fm.Stream.next, h, one_mul, harg]

theorem Fm.Stream.stepN_mix {α : Type} [LinearOrderedField α] [FloorRing α]
    (ops : Fm.Ops α) (sr : ℕ) (p : α) :
    ∀ (n : ℕ) (A B : Fm.Stream α),
      (∀ i, i < n → (Fm.Stream.sampleN ops i A).isSome ∧ (Fm.Stream.sampleN ops i B).isSome) →
      Fm.Stream.stepN ops n (.mix sr A B p) =
        .mix sr (Fm.Stream.stepN ops n A) (Fm.Stream.stepN ops n B) p
  | 0, A, B, _ => rfl
  | n + 1, A, B, h => by
      obtain ⟨hA, hB⟩ := h 0 (Nat.succ_pos n)
      rcases hA' : A.next ops with ⟨oa, A'⟩
      rcases hB' : B.next ops with ⟨ob, B'⟩
      simp only [Fm.Stream.sampleN, Fm.Stream.stepN, hA'] at hA
      simp only [Fm.Stream.sampleN, Fm.Stream.stepN, hB'] at hB
      obtain ⟨a, ha⟩ := Option.isSome_iff_exists.mp hA
      obtain ⟨b, hb⟩ := Option.isSome_iff_exists.mp hB
      subst ha hb
      have hshift : ∀ i, i < n →
          (Fm.Stream.sampleN ops i A').isSome ∧ (Fm.Stream.sampleN ops i B').isSome := by
        intro i hi
        have hsucc := h (i + 1) (by omega)
        simp only [Fm.Stream.sampleN_succ, hA', hB'] at hsucc
        exact hsucc
      have IH := Fm.Stream.stepN_mix ops sr p n A' B' hshift
      show Fm.Stream.stepN ops n ((Fm.Stream.mix sr A B p).next ops).2 =
        Fm.Stream.mix sr (Fm.Stream.stepN ops n (A.next ops).2)
          (Fm.Stream.stepN ops n (B.next ops).2) p
      simp only [Fm.Stream.next, hA', hB']
      exact IH

/-- C7 (amended): every emitted sample of `Mix(A,B,p)` (src/fm.rs:394-404)
equals `p·a + (1−p)·b` of the corresponding samples a of A and b of B;
while both streams are still yielding, with p=1 the output equals A's
samples and with p=0 it equals B's samples; and for finite A and B, Mix
first returns `None` exactly after `min (len A) (len B)` samples.  (The
unrestricted form — with p=1 the whole output sequence equals A's sequence
— fails when B is shorter than A; see the counterexample.) -/
theorem claim_C7_thm {α : Type} [LinearOrderedField α] [FloorRing α]
    (ops : Fm.Ops α) (sr : ℕ) (A B : Fm.Stream α) (p : α) :
    (∀ n a b,
        (∀ i, i ≤ n → (Fm.Stream.sampleN ops i A).isSome ∧ (Fm.Stream.sampleN ops i B).isSome) →
        Fm.Stream.sampleN ops n A = some a → Fm.Stream.sampleN ops n B = some b →
        Fm.Stream.sampleN ops n (.mix sr A B p) = some (p * a + (1 - p) * b) ∧
        Fm.Stream.sampleN ops n (.mix sr A B 1) = some a ∧
        Fm.Stream.sampleN ops n (.mix sr A B 0) = some b) ∧
    (∀ ka kb, Fm.FirstNone ops A ka → Fm.FirstNone ops B kb →
        Fm.FirstNone ops (.mix sr A B p) (min ka kb)) := by
  constructor
  · intro n a b hall ha hb
    have hlt : ∀ i, i < n →
        (Fm.Stream.sampleN ops i A).isSome ∧ (Fm.Stream.sampleN ops i B).isSome :=
      fun i hi => hall i (le_of_lt hi)
    rcases hA' : (Fm.Stream.stepN ops n A).next ops with ⟨oa, A''⟩
    rcases hB' : (Fm.Stream.stepN ops n B).next ops with ⟨ob, B''⟩
    simp only [Fm.Stream.sampleN, hA'] at ha
    simp only [Fm.Stream.sampleN, hB'] at hb
    subst ha hb
    have key : ∀ q : α, Fm.Stream.sampleN ops n (.mix sr A B q) = some (q * a + (1 - q) * b) := by
      intro q
      show ((Fm.Stream.stepN ops n (.mix sr A B q)).next ops).1 = _
      rw [Fm.Stream.stepN_mix ops sr q n A B hlt]
      simp [Fm.Stream.next, hA', hB']
    refine ⟨key p, ?_, ?_⟩
    · rw [key 1]; congr 1; ring
    · rw [key 0]; congr 1; ring
  · intro ka kb hka hkb
    have hlt : ∀ i, i < min ka kb →
        (Fm.Stream.sampleN ops i A).isSome ∧ (Fm.Stream.sampleN ops i B).isSome :=
      fun i hi => ⟨hka.1 i (lt_of_lt_of_le hi (min_le_left _ _)),
                   hkb.1 i (lt_of_lt_of_le hi (min_le_right _ _))⟩
    constructor
    · intro i hi
      have hlt' : ∀ j, j < i →
          (Fm.Stream.sampleN ops j A).isSome ∧ (Fm.Stream.sampleN ops j B).isSome :=
        fun j hj => hlt j (lt_trans hj hi)
      obtain ⟨hia, hib⟩ := hlt i hi
      obtain ⟨a, ha⟩ := Option.isSome_iff_exists.mp hia
      obtain ⟨b, hb⟩ := Option.isSome_iff_exists.mp hib
      rcases hA' : (Fm.Stream.stepN ops i A).next ops with ⟨oa, A''⟩
      rcases hB' : (Fm.Stream.stepN ops i B).next ops with ⟨ob, B''⟩
      simp only [Fm.Stream.sampleN, hA'] at ha
      simp only [Fm.Stream.sampleN, hB'] at hb
      subst ha hb
      show (((Fm.Stream.stepN ops i (.mix sr A B p)).next ops).1).isSome
      rw [Fm.Stream.stepN_mix ops sr p i A B hlt']
      simp [Fm.Stream.next, hA', hB']
    · show ((Fm.Stream.stepN ops (min ka kb) (.mix sr A B p)).next ops).1 = none
      rw [Fm.Stream.stepN_mix ops sr p (min ka kb) A B hlt]
      have hor : Fm.Stream.sampleN ops (min ka kb) A = none ∨
          Fm.Stream.sampleN ops (min ka kb) B = none := by
        rcases min_cases ka kb with ⟨hmin, _⟩ | ⟨hmin, _⟩
        · exact Or.inl (by rw [hmin]; exact hka.2)
        · exact Or.inr (by rw [hmin]; exact hkb.2)
      rcases hA' : (Fm.Stream.stepN ops (min ka kb) A).next ops with ⟨oa, A''⟩
      rcases hB' : (Fm.Stream.stepN ops (min ka kb) B).next ops with ⟨ob, B''⟩
      simp only [Fm.Stream.sampleN, hA', hB'] at hor
      cases oa with
      | none => simp [Fm.Stream.next, hA']
      | some a =>
        cases ob with
        | none => simp [Fm.Stream.next, hA', hB']
        | some b => rcases hor with h | h <;> simp at h

/-- C7 counterexample: with p = 1 the output of Mix does not equal A's
sequence sample-for-sample — with A = Silence (infinite) and B = Empty
(length 0), Mix returns `None` on the very first pull while A yields
`Some 0` there (Mix ends at the minimum of the two lengths, truncating A). -/
theorem claim_C7_cex :
    Fm.Stream.sampleN opsQ 0 (.mix 44100 (.silence 44100) (.empty 44100) 1) = none ∧
    Fm.Stream.sampleN opsQ 0 (Fm.Stream.silence 44100) = some 0 := ⟨rfl, rfl⟩

/-- Witness for C7's theorem: the mixed-sample formula at p = 1/2 on two
Silence streams at pull 1, and the exact ending index for two Empty
streams (both lengths 0, Mix ends at min 0 0 = 0). -/
theorem claim_C7_witness :
    Fm.Stream.sampleN opsQ 1 (.mix 44100 (.silence 44100) (.silence 44100) (1 / 2)) =
      some ((1 / 2 : ℚ) * 0 + (1 - 1 / 2) * 0) ∧
    Fm.FirstNone opsQ (.mix 44100 (.empty 44100) (.empty 44100) (1 / 2)) (min 0 0) := by
  constructor
  · exact ((claim_C7_thm opsQ 44100 (.silence 44100) (.silence 44100) (1 / 2)).1 1 0 0
      (by decide) rfl rfl).1
  · exact (claim_C7_thm opsQ 44100 (.empty 44100) (.empty 44100) (1 / 2)).2 0 0
      ⟨fun i hi => absurd hi (Nat.not_lt_zero i), rfl⟩
      ⟨fun i hi => absurd hi (Nat.not_lt_zero i), rfl⟩

namespace App

/-- `MyDataType` (src/app.rs:27-30). -/
inductive MyDataType : Type where
  | stream
  | const
  deriving Repr, DecidableEq

/-- `MyValueType` (src/app.rs:41-44). -/
inductive MyValueType (α : Type) : Type where
  | stream (value : Fm.Stream α)
  | const (value : α)
  deriving Repr, DecidableEq

/-- The evaluator's error kinds: the two `anyhow::bail!` casts of
`MyValueType::try_to_stream` / `try_to_const` (src/app.rs:54-72), the
graph-library errors of `get_input` / `get_output`, and the two panic
sites — slotmap indexing `graph[...]` and the
`.expect("Cache should be populated")` of `evaluate_input` — embedded as
error values so that the evaluator is a total function. -/
inductive EvalErr : Type where
  | missingInput
  | missingOutput
  | castToStream
  | castToConst
  | nodePanic
  | cachePanic
  deriving Repr, DecidableEq

/-- `MyValueType::try_to_stream` (src/app.rs:56-62). -/
def MyValueType.try_to_stream {α : Type} : MyValueType α → Except EvalErr (Fm.Stream α)
  | .stream value => .ok value
  | .const _ => .error .castToStream

/-- `MyValueType::try_to_const` (src/app.rs:65-71). -/
def MyValueType.try_to_const {α : Type} : MyValueType α → Except EvalErr α
  | .const value => .ok value
  | .stream _ => .error .castToConst

/-- An input port as created by `build_node`'s `add_input_param`
(src/app.rs:159-242): identity, parameter name, declared data type and the
inline default value used when the port is unconnected.  (The
connectivity/widget kind is UI-only and unused by the evaluator.) -/
structure InputPort (α : Type) : Type where
  iid : ℕ
  name : String
  dataType : MyDataType
  value : MyValueType α
  deriving Repr, DecidableEq

/-- An output port as created by `add_output_param`. -/
structure OutputPort : Type where
  oid : ℕ
  name : String
  deriving Repr, DecidableEq

/-- One graph node: its id, the template stored in its `MyNodeData`
(src/app.rs:18-20, 155-157), and its ports. -/
structure Node (α : Type) : Type where
  id : ℕ
  template : Fm.Stream α
  inputs : List (InputPort α)
  outputs : List OutputPort
  deriving Repr, DecidableEq

/-- The graph: its nodes plus the connection relation, mapping an input
port id to the single output port id feeding it. -/
structure MyGraph (α : Type) : Type where
  nodes : List (Node α)
  connections : List (ℕ × ℕ)
  deriving Repr, DecidableEq

/-- `graph[node_id]` (slotmap indexing, by id). -/
def MyGraph.node? {α : Type} (g : MyGraph α) (nid : ℕ) : Option (Node α) :=
  g.nodes.find? (fun n => n.id == nid)

/-- The graph library's `Node::get_input(name)`: the id of this node's
input port with the given name, or an error. -/
def Node.get_input {α : Type} (n : Node α) (param_name : String) : Except EvalErr ℕ :=
  match n.inputs.find? (fun p => p.name == param_name) with
  | some p => .ok p.iid
  | none => .error .missingInput

/-- The graph library's `Node::get_output(name)`. -/
def Node.get_output {α : Type} (n : Node α) (param_name : String) : Except EvalErr ℕ :=
  match n.outputs.find? (fun p => p.name == param_name) with
  | some p => .ok p.oid
  | none => .error .missingOutput

/-- `graph.connection(input_id)`: the output feeding this input, if any. -/
def MyGraph.connection {α : Type} (g : MyGraph α) (iid : ℕ) : Option ℕ :=
  (g.connections.find? (fun c => c.1 == iid)).map (fun c => c.2)

/-- `graph[input_id].value`: the inline value of an input port. -/
def MyGraph.inputValue? {α : Type} (g : MyGraph α) (iid : ℕ) : Option (MyValueType α) :=
  g.nodes.findSome? (fun n => (n.inputs.find? (fun p => p.iid == iid)).map (fun p => p.value))

/-- `graph[output_id].node`: the id of the node owning an output port. -/
def MyGraph.outputNode? {α : Type} (g : MyGraph α) (oid : ℕ) : Option ℕ :=
  g.nodes.findSome? (fun n => if n.outputs.any (fun p => p.oid == oid) then some n.id else none)

/-- `OutputsCache` (src/app.rs:474): `HashMap<OutputId, MyValueType>`,
embedded as an association list; insert prepends and lookup takes the
first hit, which matches the map's overwrite semantics. -/
abbrev Cache (α : Type) : Type := List (ℕ × MyValueType α)

def Cache.lookup {α : Type} : Cache α → ℕ → Option (MyValueType α)
  | [], _ => none
  | (k, v) :: c, o => if k = o then some v else Cache.lookup c o

/-- `populate_output` (src/app.rs:567-577): look up the node's output port
by name, insert the value into the cache under it and return the value. -/
def populate_output {α : Type} (g : MyGraph α) (outputs_cache : Cache α) (node_id : ℕ)
    (param_name : String) (value : MyValueType α) :
    Except EvalErr (MyValueType α) × Cache α :=
  match g.node? node_id with
  | none => (.error .nodePanic, outputs_cache)
  | some node =>
    match node.get_output param_name with
    | .error e => (.error e, outputs_cache)
    | .ok output_id => (.ok value, (output_id, value) :: outputs_cache)

/-- Result of one (sub-)evaluation: the `anyhow::Result<MyValueType>`, the
updated cache, the construction trace (ids of nodes whose template was
cloned and instantiated during the call, in order — instrumentation for
the memoization claims), and the reception trace (input id, connected
output id, and the value fetched from the cache for it — instrumentation
for the shared-cached-value claim). -/
abbrev EvalResult (α : Type) :=
  Except EvalErr (MyValueType α) × Cache α × List ℕ × List (ℕ × ℕ × MyValueType α)

/-- Body of `evaluate_input` (src/app.rs:580-613), parameterized by the
recursive entry point so that `evaluate_node` below is structural in its
fuel.  A `none` result means a recursive call ran out of fuel (the Rust
code would still be recursing).  Note the source discards the result of
the recursive `evaluate_node` call and re-reads the cache, panicking
(`cachePanic`) if the producer did not populate the connected output. -/
def evaluate_input_core {α : Type} (evalN : ℕ → Cache α → Option (EvalResult α))
    (g : MyGraph α) (node_id : ℕ) (param_name : String) (outputs_cache : Cache α) :
    Option (EvalResult α) :=
  match g.node? node_id with
  | none => some (.error .nodePanic, outputs_cache, [], [])
  | some node =>
    match node.get_input param_name with
    | .error e => some (.error e, outputs_cache, [], [])
    | .ok input_id =>
      match g.connection input_id with
      | some other_output_id =>
        match outputs_cache.lookup other_output_id with
        | some other_value =>
            some (.ok other_value, outputs_cache, [],
              [(input_id, other_output_id, other_value)])
        | none =>
          match g.outputNode? other_output_id with
          | none => some (.error .nodePanic, outputs_cache, [], [])
          | some producer =>
            match evalN producer outputs_cache with
            | none => none
            | some (.error e, c', tr, rv) => some (.error e, c', tr, rv)
            | some (.ok _, c', tr, rv) =>
              match c'.lookup other_output_id with
              | some v =>
                  some (.ok v, c', tr, rv ++ [(input_id, other_output_id, v)])
              | none => some (.error .cachePanic, c', tr, rv)
      | none =>
        match g.inputValue? input_id with
        | some v => some (.ok v, outputs_cache, [], [])
        | none => some (.error .nodePanic, outputs_cache, [], [])

/-- `evaluate_node` (src/app.rs:477-565) with explicit fuel: clone the
node's template, resolve exactly the inputs the template's arm asks for
(`Evaluator::input_const` / `input_stream` are evaluation followed by the
cast), apply the setters to the cloned template and register the built
stream under the node's "Stream" output via `populate_output`.  The
returned construction trace is this node consed onto its sub-evaluations'
traces.  The match in src/app.rs:541-564 is exhaustive over the five
variants of its version of `fm::Stream`; the remaining constructors of
this embedding's `Stream` are mapped to the unreachable-pattern panic. -/
def evaluate_node {α : Type} (g : MyGraph α) :
    ℕ → ℕ → Cache α → Option (EvalResult α)
  | 0, _, _ => none
  | fuel + 1, node_id, outputs_cache =>
    match g.node? node_id with
    | none => some (.error .nodePanic, outputs_cache, [], [])
    | some node =>
      match node.template with
      | .sineWave _ sample_rate current_sample phase_shift =>
        match evaluate_input_core (evaluate_node g fuel) g node_id "Frequency" outputs_cache with
        | none => none
        | some (.error e, c1, tr1, rv1) => some (.error e, c1, node_id :: tr1, rv1)
        | some (.ok v, c1, tr1, rv1) =>
          match v.try_to_const with
          | .error e => some (.error e, c1, node_id :: tr1, rv1)
          | .ok freq =>
            match populate_output g c1 node_id "Stream"
                (.stream (.sineWave freq sample_rate current_sample phase_shift)) with
            | (r, c2) => some (r, c2, node_id :: tr1, rv1)
      | .modulatedSineWave _ sample_rate _ current_sample =>
        match evaluate_input_core (evaluate_node g fuel) g node_id "Frequency" outputs_cache with
        | none => none
        | some (.error e, c1, tr1, rv1) => some (.error e, c1, node_id :: tr1, rv1)
        | some (.ok v1, c1, tr1, rv1) =>
          match v1.try_to_const with
          | .error e => some (.error e, c1, node_id :: tr1, rv1)
          | .ok freq =>
            match evaluate_input_core (evaluate_node g fuel) g node_id "Modulation" c1 with
            | none => none
            | some (.error e, c2, tr2, rv2) =>
                some (.error e, c2, node_id :: (tr1 ++ tr2), rv1 ++ rv2)
            | some (.ok v2, c2, tr2, rv2) =>
              match v2.try_to_stream with
              | .error e => some (.error e, c2, node_id :: (tr1 ++ tr2), rv1 ++ rv2)
              | .ok modulator =>
                match populate_output g c2 node_id "Stream"
                    (.stream (.modulatedSineWave freq sample_rate modulator current_sample)) with
                | (r, c3) => some (r, c3, node_id :: (tr1 ++ tr2), rv1 ++ rv2)
      | .mix sample_rate _ _ p =>
        match evaluate_input_core (evaluate_node g fuel) g node_id "A" outputs_cache with
        | none => none
        | some (.error e, c1, tr1, rv1) => some (.error e, c1, node_id :: tr1, rv1)
        | some (.ok va, c1, tr1, rv1) =>
          match va.try_to_stream with
          | .error e => some (.error e, c1, node_id :: tr1, rv1)
          | .ok stream_a =>
            match evaluate_input_core (evaluate_node g fuel) g node_id "B" c1 with
            | none => none
            | some (.error e, c2, tr2, rv2) =>
                some (.error e, c2, node_id :: (tr1 ++ tr2), rv1 ++ rv2)
            | some (.ok vb, c2, tr2, rv2) =>
              match vb.try_to_stream with
              | .error e => some (.error e, c2, node_id :: (tr1 ++ tr2), rv1 ++ rv2)
              | .ok stream_b =>
                match populate_output g c2 node_id "Stream"
                    (.stream (.mix sample_rate stream_a stream_b p)) with
                | (r, c3) => some (r, c3, node_id :: (tr1 ++ tr2), rv1 ++ rv2)
      | .silence sample_rate =>
        match populate_output g outputs_cache node_id "Stream"
            (.stream (.silence sample_rate)) with
        | (r, c1) => some (r, c1, [node_id], [])
      | .empty sample_rate =>
        match populate_output g outputs_cache node_id "Stream"
            (.stream (.empty sample_rate)) with
        | (r, c1) => some (r, c1, [node_id], [])
      | _ => some (.error .nodePanic, outputs_cache, [node_id], [])

/-- `evaluate_input` (src/app.rs:580-613) at a given fuel. -/
def evaluate_input {α : Type} (g : MyGraph α) (fuel node_id : ℕ)
    (param_name : String) (outputs_cache : Cache α) : Option (EvalResult α) :=
  evaluate_input_core (evaluate_node g fuel) g node_id param_name outputs_cache

/-- The id of a node's "Stream" output, when it has one: the cache key
`evaluate_node` populates for that node. -/
def outId? {α : Type} (g : MyGraph α) (nid : ℕ) : Option ℕ :=
  match g.node? nid with
  | none => none
  | some n =>
    match n.get_output "Stream" with
    | .ok o => some o
    | .error _ => none

/-- Decidable edge test: node `nc` has an input port connected to an
output owned by node `np` — exactly the step on which `evaluate_input`
recurses into `evaluate_node`. -/
def edgeB {α : Type} (g : MyGraph α) (nc np : ℕ) : Bool :=
  match g.node? nc with
  | none => false
  | some n =>
    n.inputs.any (fun p =>
      match g.connection p.iid with
      | some oid =>
        match g.outputNode? oid with
        | some m => m == np
        | none => false
      | none => false)

/-- Well-formedness of a graph as produced by `build_node` and the graph
library: node ids identify nodes; every node has exactly one output port,
named "Stream" (each of the five templates adds exactly that one output,
src/app.rs:186, 207, 237, 239, 240); output-port ids are not shared
between distinct nodes; and every connection's source output belongs to
some node. -/
abbrev Wf {α : Type} (g : MyGraph α) : Prop :=
  ((g.nodes.map (fun n => n.id)).Nodup) ∧
  (∀ n ∈ g.nodes, n.outputs.map (fun p => p.name) = ["Stream"]) ∧
  (∀ n1 ∈ g.nodes, ∀ n2 ∈ g.nodes, ∀ p1 ∈ n1.outputs, ∀ p2 ∈ n2.outputs,
      p1.oid = p2.oid → n1.id = n2.id) ∧
  (∀ c ∈ g.connections, ∃ n ∈ g.nodes, ∃ p ∈ n.outputs, p.oid = c.2)

/-- Acyclicity certificate: a rank function strictly decreasing along
every consumer-to-producer edge of the graph. -/
abbrev RankOk {α : Type} (g : MyGraph α) (rank : ℕ → ℕ) : Prop :=
  ∀ nc ∈ g.nodes.map (fun n => n.id), ∀ np ∈ g.nodes.map (fun n => n.id),
    edgeB g nc np = true → rank np < rank nc

/-- The mix-ratio field of a materialized Mix pipeline value, when the
value is one. -/
def mixP? {α : Type} : MyValueType α → Option α
  | .stream (.mix _ _ _ p) => some p
  | _ => none

end App

/-- C1's end-to-end graph: node 1 is a Sine node (template
`SineWave::new`) whose "Frequency" input (port 10) is the unconnected
inline constant 440; node 2 is a Mix node (template `Mix::new`) whose "p"
input (port 20) is the inline constant 0.5, whose "A" input (port 21) is
connected to node 1's "Stream" output (port 100), and whose "B" input
(port 22) is left unconnected, resolving to its inline default
`Stream::Empty` (src/app.rs:228-235); ports as built by `build_node`. -/
def gC1 (α : Type) [LinearOrderedField α] [FloorRing α] : App.MyGraph α where
  nodes :=
    [ { id := 1, template := Fm.SineWave.new,
        inputs := [{ iid := 10, name := "Frequency", dataType := .const, value := .const 440 }],
        outputs := [{ oid := 100, name := "Stream" }] },
      { id := 2, template := Fm.Mix.new,
        inputs :=
          [ { iid := 20, name := "p", dataType := .const, value := .const (1 / 2) },
            { iid := 21, name := "A", dataType := .stream, value := .stream Fm.Empty.new },
            { iid := 22, name := "B", dataType := .stream, value := .stream Fm.Empty.new } ],
        outputs := [{ oid := 200, name := "Stream" }] } ]
  connections := [(21, 100)]

/-- The pipeline that `evaluate_node` materializes for C1's Mix node:
`Mix(Sine 440, Empty, 0.5)`. -/
def mixC1 (α : Type) [LinearOrderedField α] [FloorRing α] : Fm.Stream α :=
  .mix 44100 (.sineWave 440 44100 0 0) (.empty 44100) (1 / 2)

theorem Fm.Stream.next_mix_emptyB {α : Type} [LinearOrderedField α] [FloorRing α]
    (ops : Fm.Ops α) (sr esr : ℕ) (A : Fm.Stream α) (p : α) :
    (Fm.Stream.mix sr A (.empty esr) p).next ops =
      (none, .mix sr (A.next ops).2 (.empty esr) p) := by
  rcases h : A.next ops with ⟨oa, A'⟩
  cases oa <;> simp [Fm.Stream.next, h]

theorem Fm.Stream.stepN_mix_emptyB {α : Type} [LinearOrderedField α] [FloorRing α]
    (ops : Fm.Ops α) (sr esr : ℕ) (p : α) :
    ∀ (n : ℕ) (A : Fm.Stream α),
      Fm.Stream.stepN ops n (.mix sr A (.empty esr) p) =
        .mix sr (Fm.Stream.stepN ops n A) (.empty esr) p
  | 0, A => rfl
  | n + 1, A => by
      show Fm.Stream.stepN ops n ((Fm.Stream.mix sr A (.empty esr) p).next ops).2 = _
      rw [Fm.Stream.next_mix_emptyB]
      exact Fm.Stream.stepN_mix_emptyB ops sr esr p n (A.next ops).2

/-- C1 (amended): in C1's graph, `evaluate_node` on the Mix node succeeds
and returns the pipeline `Mix(Sine 440, Empty, 0.5)` — but because the "B"
input's inline default is `Empty` (src/app.rs:228-235), which ends
immediately, the returned stream yields no samples at all: every pull
returns `None` (not the claimed `0.5·sin(2π·440·n/44100)`). -/
theorem claim_C1_thm {α : Type} [LinearOrderedField α] [FloorRing α]
    (ops : Fm.Ops α) (n : ℕ) :
    App.evaluate_node (gC1 α) 10 2 [] =
      some (.ok (.stream (mixC1 α)),
        [(200, .stream (mixC1 α)), (100, .stream (.sineWave 440 44100 0 0))],
        [2, 1],
        [(21, 100, .stream (.sineWave 440 44100 0 0))]) ∧
    Fm.Stream.sampleN ops n (mixC1 α) = none := by
  constructor
  · rfl
  · show ((Fm.Stream.stepN ops n (mixC1 α)).next ops).1 = none
    rw [show mixC1 α = .mix 44100 (.sineWave 440 44100 0 0) (.empty 44100) (1 / 2) from rfl]
    rw [Fm.Stream.stepN_mix_emptyB]
    rw [Fm.Stream.next_mix_emptyB]

/-- C1 counterexample: on the claim's graph (B unconnected, resolving to
its inline default), the 0-th pull of the stream returned by
`evaluate_node` on the Mix node is `None` and not the claimed
`Some (0.5·sin(2π·440·0/44100))`. -/
theorem claim_C1_cex :
    App.evaluate_node (gC1 ℚ) 10 2 [] =
      some (.ok (.stream (mixC1 ℚ)),
        [(200, .stream (mixC1 ℚ)), (100, .stream (.sineWave 440 44100 0 0))],
        [2, 1],
        [(21, 100, .stream (.sineWave 440 44100 0 0))]) ∧
    Fm.Stream.sampleN opsQ 0 (mixC1 ℚ) = none ∧
    some ((1 / 2 : ℚ) * opsQ.sin (2 * opsQ.pi * 440 * 0 / 44100)) ≠ none := by
  refine ⟨rfl, rfl, ?_⟩
  simp

/-- C10: for every graph, fuel, cache and node whose stored template is a
Mix, a successful `evaluate_node` returns a Mix pipeline whose ratio `p`
is the template's `p` field — the Mix arm (src/app.rs:552-557) resolves
only "A" and "B" and never the declared "p" input, so neither that input's
inline value nor a connection to it can influence the result; and the
template produced by `Mix::new()` (src/fm.rs:407-414, instantiated through
`all_kinds`) carries p = 0.5. -/
theorem claim_C10_thm {α : Type} [LinearOrderedField α] [FloorRing α]
    (g : App.MyGraph α) (fuel node_id : ℕ) (c : App.Cache α) (node : App.Node α)
    (sr : ℕ) (sa sb : Fm.Stream α) (p : α) (v : App.MyValueType α)
    (c' : App.Cache α) (tr : List ℕ) (rv : List (ℕ × ℕ × App.MyValueType α))
    (hnode : g.node? node_id = some node)
    (htemp : node.template = .mix sr sa sb p)
    (heval : App.evaluate_node g fuel node_id c = some (.ok v, c', tr, rv)) :
    App.mixP? v = some p ∧
    (Fm.Mix.new : Fm.Stream α) = .mix 44100 Fm.Empty.new Fm.Empty.new (1 / 2) := by
  refine ⟨?_, rfl⟩
  cases fuel with
  | zero => exact absurd heval (by simp [App.evaluate_node])
  | succ f =>
    simp only [App.evaluate_node, hnode, htemp, App.populate_output] at heval
    repeat' split at heval
    all_goals simp at heval
    all_goals
      obtain ⟨hv, -, -, -⟩ := heval
      subst hv
      rfl

/-- Witness graph for C10: a single Mix node (template `Mix::new`, whose p
field is 0.5) whose declared "p" input carries the inline value 777 —
demonstrably without any effect on the materialized pipeline. -/
def gC10 : App.MyGraph ℚ where
  nodes :=
    [ { id := 1, template := Fm.Mix.new,
        inputs :=
          [ { iid := 10, name := "p", dataType := .const, value := .const 777 },
            { iid := 11, name := "A", dataType := .stream, value := .stream Fm.Empty.new },
            { iid := 12, name := "B", dataType := .stream, value := .stream Fm.Empty.new } ],
        outputs := [{ oid := 100, name := "Stream" }] } ]
  connections := []

/-- Witness for C10's theorem: evaluating the `gC10` Mix node (inline
p-input 777) materializes a Mix pipeline whose ratio is still 0.5. -/
theorem claim_C10_witness :
    App.mixP? (.stream (.mix 44100 (.empty 44100) (.empty 44100) (1 / 2 : ℚ))) = some (1 / 2) ∧
    (Fm.Mix.new : Fm.Stream ℚ) = .mix 44100 Fm.Empty.new Fm.Empty.new (1 / 2) :=
  claim_C10_thm gC10 3 1 [] _ _ _ _ _ _ _ _ _ rfl rfl rfl

/-- C5: whenever resolving the "Frequency" input (declared `Const`) of a
Sine or Modulated-Sine node yields a `Stream` value — for example because
it is connected to another node's Stream-only output — `evaluate_node` on
the consuming node returns the typed `castToConst` error raised by
`MyValueType::try_to_const` (src/app.rs:65-71, reached through
`Evaluator::input_const`, src/app.rs:528-530): an `Err` carrying the
type-mismatch, not a panic (the panic sites are the distinct
`nodePanic`/`cachePanic` values) and not a silent default value. -/
theorem claim_C5_thm {α : Type} [LinearOrderedField α] [FloorRing α]
    (g : App.MyGraph α) (fuel node_id : ℕ) (c : App.Cache α) (node : App.Node α)
    (v : Fm.Stream α) (c' : App.Cache α) (tr : List ℕ) (rv : List (ℕ × ℕ × App.MyValueType α))
    (hnode : g.node? node_id = some node)
    (htemp : (∃ fr sr cur ph, node.template = .sineWave fr sr cur ph) ∨
             (∃ fr sr m cur, node.template = .modulatedSineWave fr sr m cur))
    (hinput : App.evaluate_input g fuel node_id "Frequency" c =
        some (.ok (.stream v), c', tr, rv)) :
    App.evaluate_node g (fuel + 1) node_id c =
      some (.error .castToConst, c', node_id :: tr, rv) := by
  simp only [App.evaluate_input] at hinput
  rcases htemp with ⟨fr, sr, cur, ph, ht⟩ | ⟨fr, sr, m, cur, ht⟩ <;>
    simp [App.evaluate_node, hnode, ht, hinput, App.MyValueType.try_to_const]

/-- Witness graph for C5: node 1 is a Sine node whose Const-typed
"Frequency" input (port 10) is connected to the Stream-only output
(port 200) of node 2, a Silence node. -/
def gC5 : App.MyGraph ℚ where
  nodes :=
    [ { id := 1, template := Fm.SineWave.new,
        inputs := [{ iid := 10, name := "Frequency", dataType := .const, value := .const 440 }],
        outputs := [{ oid := 100, name := "Stream" }] },
      { id := 2, template := Fm.Silence.new,
        inputs := [],
        outputs := [{ oid := 200, name := "Stream" }] } ]
  connections := [(10, 200)]

/-- Witness for C5's theorem: on `gC5`, resolving "Frequency" yields the
Silence stream and evaluating the Sine node returns the `castToConst`
error (no panic, no default). -/
theorem claim_C5_witness :
    App.evaluate_node gC5 6 1 [] =
      some (.error .castToConst, [(200, .stream (.silence 44100))], [1, 2],
        [(10, 200, .stream (.silence 44100))]) :=
  claim_C5_thm gC5 5 1 [] _ (.silence 44100) _ _ _ rfl (Or.inl ⟨0, 44100, 0, 0, rfl⟩) rfl

/-- C9's counterexample graph: node 2 (Mix) has "A" (port 21) connected to
node 1 (Sine, output 100) and "B" (port 22) connected to node 2's own
output 200 — a cycle in node 2's transitive inputs — while node 1's
Const-typed "Frequency" (port 10) is connected to the Stream output 300 of
node 3 (Silence), which makes the "A" branch fail with a type error before
the cycle on "B" is ever reached. -/
def gC9 : App.MyGraph ℚ where
  nodes :=
    [ { id := 1, template := Fm.SineWave.new,
        inputs := [{ iid := 10, name := "Frequency", dataType := .const, value := .const 440 }],
        outputs := [{ oid := 100, name := "Stream" }] },
      { id := 2, template := Fm.Mix.new,
        inputs :=
          [ { iid := 20, name := "p", dataType := .const, value := .const (1 / 2) },
            { iid := 21, name := "A", dataType := .stream, value := .stream Fm.Empty.new },
            { iid := 22, name := "B", dataType := .stream, value := .stream Fm.Empty.new } ],
        outputs := [{ oid := 200, name := "Stream" }] },
      { id := 3, template := Fm.Silence.new,
        inputs := [],
        outputs := [{ oid := 300, name := "Stream" }] } ]
  connections := [(21, 100), (22, 200), (10, 300)]

/-- C9 counterexample: the connection relation of `gC9` has a cycle
through the evaluated Mix node itself (`edgeB gC9 2 2`: its "B" input is
fed by the node's own output), yet `evaluate_node` on it terminates with a
result — the "A" branch's type-mismatch `Err` is raised before the cycle
is reached — refuting "when the evaluated node's transitive inputs contain
a cycle, evaluate_node does not terminate". -/
theorem claim_C9_cex :
    App.edgeB gC9 2 2 = true ∧
    App.evaluate_node gC9 10 2 [] =
      some (.error .castToConst, [(300, .stream (.silence 44100))], [2, 1, 3],
        [(10, 300, .stream (.silence 44100))]) := ⟨rfl, rfl⟩

theorem App.node?_spec {α : Type} {g : App.MyGraph α} {nid : ℕ} {n : App.Node α}
    (h : g.node? nid = some n) : n ∈ g.nodes ∧ n.id = nid := by
  unfold App.MyGraph.node? at h
  refine ⟨List.mem_of_find?_eq_some h, ?_⟩
  have := List.find?_some h
  simpa using this

theorem App.node?_isSome_of_mem {α : Type} {g : App.MyGraph α} {n : App.Node α}
    (h : n ∈ g.nodes) : ∃ n', g.node? n.id = some n' := by
  unfold App.MyGraph.node?
  cases hf : g.nodes.find? (fun m => m.id == n.id) with
  | some n' => exact ⟨n', rfl⟩
  | none =>
      have := List.find?_eq_none.mp hf n h
      simp at this

theorem App.outputNode?_spec {α : Type} {g : App.MyGraph α} {oid m : ℕ}
    (h : g.outputNode? oid = some m) :
    ∃ n ∈ g.nodes, n.id = m ∧ ∃ p ∈ n.outputs, p.oid = oid := by
  unfold App.MyGraph.outputNode? at h
  obtain ⟨n, hmem, hf⟩ := List.exists_of_findSome?_eq_some h
  by_cases hc : n.outputs.any (fun p => p.oid == oid) = true
  · rw [if_pos hc] at hf
    obtain ⟨p, hp, hpe⟩ := List.any_eq_true.mp hc
    exact ⟨n, hmem, by simpa using hf, p, hp, by simpa using hpe⟩
  · rw [if_neg hc] at hf
    simp at hf

theorem App.get_input_spec {α : Type} {n : App.Node α} {pname : String} {iid : ℕ}
    (h : n.get_input pname = .ok iid) :
    ∃ p ∈ n.inputs, p.name = pname ∧ p.iid = iid := by
  unfold App.Node.get_input at h
  cases hf : n.inputs.find? (fun p => p.name == pname) with
  | none => rw [hf] at h; simp at h
  | some p =>
      rw [hf] at h
      have hname := List.find?_some hf
      exact ⟨p, List.mem_of_find?_eq_some hf, by simpa using hname, by simpa using h⟩

theorem App.get_output_spec {α : Type} {n : App.Node α} {pname : String} {oid : ℕ}
    (h : n.get_output pname = .ok oid) :
    ∃ p ∈ n.outputs, p.name = pname ∧ p.oid = oid := by
  unfold App.Node.get_output at h
  cases hf : n.outputs.find? (fun p => p.name == pname) with
  | none => rw [hf] at h; simp at h
  | some p =>
      rw [hf] at h
      have hname := List.find?_some hf
      exact ⟨p, List.mem_of_find?_eq_some hf, by simpa using hname, by simpa using h⟩

theorem App.outputs_singleton {α : Type} {g : App.MyGraph α} (hW : App.Wf g)
    {n : App.Node α} (hn : n ∈ g.nodes) :
    ∃ p, n.outputs = [p] ∧ p.name = "Stream" := by
  have h2 := hW.2.1 n hn
  cases ho : n.outputs with
  | nil => rw [ho] at h2; simp at h2
  | cons p rest =>
      rw [ho] at h2
      simp only [List.map_cons, List.cons.injEq] at h2
      obtain ⟨hpn, hrest⟩ := h2
      have hre : rest = [] := List.map_eq_nil_iff.mp hrest
      exact ⟨p, by rw [hre], hpn⟩

/-- Under well-formedness, a node present in the graph has the unique
"Stream" output that `populate_output` inserts under. -/
theorem App.outId_of_wf {α : Type} {g : App.MyGraph α} (hW : App.Wf g)
    {nid : ℕ} {n : App.Node α} (hn : g.node? nid = some n) :
    ∃ o, App.outId? g nid = some o ∧ n.outputs = [⟨o, "Stream"⟩] ∧
      n.get_output "Stream" = .ok o := by
  obtain ⟨hmem, -⟩ := App.node?_spec hn
  obtain ⟨p, hout, hpn⟩ := App.outputs_singleton hW hmem
  refine ⟨p.oid, ?_, ?_, ?_⟩
  · unfold App.outId? App.Node.get_output
    simp only [hn, hout]
    simp [hpn]
  · rw [hout]
    congr 1
    cases p
    simp only at hpn
    rw [hpn]
  · unfold App.Node.get_output
    rw [hout]
    simp [hpn]

/-- Under well-formedness, distinct nodes never share the "Stream" output
id: the cache key determines the node. -/
theorem App.outId_inj {α : Type} {g : App.MyGraph α} (hW : App.Wf g)
    {m1 m2 o : ℕ} (h1 : App.outId? g m1 = some o) (h2 : App.outId? g m2 = some o) :
    m1 = m2 := by
  unfold App.outId? at h1 h2
  cases hn1 : g.node? m1 with
  | none => simp only [hn1] at h1; exact Option.noConfusion h1
  | some n1 =>
    cases hn2 : g.node? m2 with
    | none => simp only [hn2] at h2; exact Option.noConfusion h2
    | some n2 =>
      simp only [hn1] at h1; simp only [hn2] at h2
      cases hg1 : n1.get_output "Stream" with
      | error e => simp only [hg1] at h1; exact Option.noConfusion h1
      | ok o1 =>
        cases hg2 : n2.get_output "Stream" with
        | error e => simp only [hg2] at h2; exact Option.noConfusion h2
        | ok o2 =>
          simp only [hg1, Option.some.injEq] at h1
          simp only [hg2, Option.some.injEq] at h2
          subst h1 h2
          obtain ⟨hm1, hid1⟩ := App.node?_spec hn1
          obtain ⟨hm2, hid2⟩ := App.node?_spec hn2
          obtain ⟨p1, hp1, -, hoid1⟩ := App.get_output_spec hg1
          obtain ⟨p2, hp2, -, hoid2⟩ := App.get_output_spec hg2
          have := hW.2.2.1 n1 hm1 n2 hm2 p1 hp1 p2 hp2 (by rw [hoid1, hoid2])
          rw [← hid1, ← hid2, this]

/-- Under well-formedness, the node that `evaluate_input` recurses into is
the owner of the connected output id, so its "Stream" output is exactly
that id. -/
theorem App.producer_outId {α : Type} {g : App.MyGraph α} (hW : App.Wf g)
    {oid m : ℕ} (h : g.outputNode? oid = some m) :
    App.outId? g m = some oid := by
  obtain ⟨n, hmem, hid, p, hp, hpo⟩ := App.outputNode?_spec h
  obtain ⟨n', hn'⟩ := App.node?_isSome_of_mem hmem
  rw [hid] at hn'
  obtain ⟨hmem', hid'⟩ := App.node?_spec hn'
  have heq : n' = n :=
    List.inj_on_of_nodup_map hW.1 hmem' hmem (by rw [hid', hid])
  subst heq
  obtain ⟨o, houtid, hout, -⟩ := App.outId_of_wf hW hn'
  rw [houtid]
  rw [hout] at hp
  have : p = ⟨o, "Stream"⟩ := by simpa using hp
  rw [this] at hpo
  simp only [Option.some.injEq]
  exact hpo

/-- The edge taken by a recursive `evaluate_input` step, as the decidable
edge test. -/
theorem App.edge_of_step {α : Type} {g : App.MyGraph α} {nc np iid oid : ℕ}
    {n : App.Node α} {p : App.InputPort α}
    (hn : g.node? nc = some n) (hp : p ∈ n.inputs) (hpi : p.iid = iid)
    (hc : g.connection iid = some oid) (ho : g.outputNode? oid = some np) :
    App.edgeB g nc np = true := by
  unfold App.edgeB
  rw [hn]
  rw [List.any_eq_true]
  refine ⟨p, hp, ?_⟩
  simp only [hpi, hc, ho]
  simp

/-- Rank decrease along a recursive `evaluate_input` step. -/
theorem App.rank_lt_of_step {α : Type} {g : App.MyGraph α} {rank : ℕ → ℕ}
    (hR : App.RankOk g rank) {nc np iid oid : ℕ} {n : App.Node α} {p : App.InputPort α}
    (hn : g.node? nc = some n) (hp : p ∈ n.inputs) (hpi : p.iid = iid)
    (hc : g.connection iid = some oid) (ho : g.outputNode? oid = some np) :
    rank np < rank nc := by
  obtain ⟨hmem, hid⟩ := App.node?_spec hn
  obtain ⟨n', hmem', hid', -⟩ := App.outputNode?_spec ho
  refine hR nc ?_ np ?_ (App.edge_of_step hn hp hpi hc ho)
  · rw [List.mem_map]; exact ⟨n, hmem, hid⟩
  · rw [List.mem_map]; exact ⟨n', hmem', hid'⟩

theorem App.Cache.lookup_cons {α : Type} (k : ℕ) (v : App.MyValueType α)
    (c : App.Cache α) (o : ℕ) :
    App.Cache.lookup ((k, v) :: c) o = if k = o then some v else App.Cache.lookup c o := rfl

/-- The memoization invariant delivered by every completed `evaluate_node`
call (entry cache `c`, outcome `res`, final cache `c'`, construction trace
`tr`, reception trace `rv`): the cache grows monotonically without ever
changing a stored value; every new cache key is the output of a node
constructed during the call; every constructed node other than the root
had an uncached output on entry; on success every constructed node's
output ends up cached; no node is constructed twice; every constructed
node other than the root sits strictly below the root in rank; and every
received value is the final cache content of its output. -/
structure App.NodeInv {α : Type} (g : App.MyGraph α) (rank : ℕ → ℕ) (nid : ℕ)
    (c : App.Cache α) (res : Except App.EvalErr (App.MyValueType α)) (c' : App.Cache α)
    (tr : List ℕ) (rv : List (ℕ × ℕ × App.MyValueType α)) : Prop where
  mono : ∀ o v, c.lookup o = some v → c'.lookup o = some v
  fresh : ∀ o, (c'.lookup o).isSome → (c.lookup o).isSome ∨ ∃ m ∈ tr, App.outId? g m = some o
  tr_new : ∀ m ∈ tr, m = nid ∨ ∀ o, App.outId? g m = some o → c.lookup o = none
  tr_done : res.isOk → ∀ m ∈ tr, ∃ o, App.outId? g m = some o ∧ (c'.lookup o).isSome
  tr_nodup : tr.Nodup
  tr_rank : ∀ m ∈ tr, m = nid ∨ rank m < rank nid
  rv_cached : ∀ e ∈ rv, c'.lookup e.2.1 = some e.2.2

/-- The analogous invariant for a completed `evaluate_input` call on one
input of node `nid` (here every constructed node is strictly below `nid`,
and every constructed node's output was uncached on entry). -/
structure App.InputInv {α : Type} (g : App.MyGraph α) (rank : ℕ → ℕ) (nid : ℕ)
    (c : App.Cache α) (res : Except App.EvalErr (App.MyValueType α)) (c' : App.Cache α)
    (tr : List ℕ) (rv : List (ℕ × ℕ × App.MyValueType α)) : Prop where
  mono : ∀ o v, c.lookup o = some v → c'.lookup o = some v
  fresh : ∀ o, (c'.lookup o).isSome → (c.lookup o).isSome ∨ ∃ m ∈ tr, App.outId? g m = some o
  tr_new : ∀ m ∈ tr, ∀ o, App.outId? g m = some o → c.lookup o = none
  tr_done : res.isOk → ∀ m ∈ tr, ∃ o, App.outId? g m = some o ∧ (c'.lookup o).isSome
  tr_nodup : tr.Nodup
  tr_rank : ∀ m ∈ tr, rank m < rank nid
  rv_cached : ∀ e ∈ rv, c'.lookup e.2.1 = some e.2.2

/-- Invariant for the input branches that neither recurse nor touch the
cache (missing node/port, inline value, panic). -/
theorem App.InputInv.trivial {α : Type} {g : App.MyGraph α} {rank : ℕ → ℕ} {nid : ℕ}
    {c : App.Cache α} {res : Except App.EvalErr (App.MyValueType α)} :
    App.InputInv g rank nid c res c [] [] where
  mono := fun _ _ h => h
  fresh := fun _ h => Or.inl h
  tr_new := by simp
  tr_done := by simp
  tr_nodup := List.nodup_nil
  tr_rank := by simp
  rv_cached := by simp

/-- Invariant for the cache-hit branch of `evaluate_input`. -/
theorem App.InputInv.hit {α : Type} {g : App.MyGraph α} {rank : ℕ → ℕ} {nid : ℕ}
    {c : App.Cache α} {iid oid : ℕ} {v : App.MyValueType α}
    (h : c.lookup oid = some v) :
    App.InputInv g rank nid c (.ok v) c [] [(iid, oid, v)] where
  mono := fun _ _ h => h
  fresh := fun _ h => Or.inl h
  tr_new := by simp
  tr_done := by simp
  tr_nodup := List.nodup_nil
  tr_rank := by simp
  rv_cached := by
    intro e he
    simp only [List.mem_singleton] at he
    subst he
    exact h

/-- Sequential composition of two input resolutions of the same node (the
second starting from the first's cache, the first having succeeded). -/
theorem App.InputInv.seq {α : Type} {g : App.MyGraph α} {rank : ℕ → ℕ}
    {nid : ℕ} {c c1 c2 : App.Cache α}
    {res1 res2 : Except App.EvalErr (App.MyValueType α)}
    {tr1 tr2 : List ℕ} {rv1 rv2 : List (ℕ × ℕ × App.MyValueType α)}
    (I1 : App.InputInv g rank nid c res1 c1 tr1 rv1)
    (I2 : App.InputInv g rank nid c1 res2 c2 tr2 rv2)
    (hok1 : res1.isOk) :
    App.InputInv g rank nid c res2 c2 (tr1 ++ tr2) (rv1 ++ rv2) where
  mono := fun o v h => I2.mono o v (I1.mono o v h)
  fresh := by
    intro o h
    rcases I2.fresh o h with h1 | ⟨m, hm, ho⟩
    · rcases I1.fresh o h1 with h2 | ⟨m, hm, ho⟩
      · exact Or.inl h2
      · exact Or.inr ⟨m, List.mem_append_left _ hm, ho⟩
    · exact Or.inr ⟨m, List.mem_append_right _ hm, ho⟩
  tr_new := by
    intro m hm o ho
    rcases List.mem_append.mp hm with h1 | h2
    · exact I1.tr_new m h1 o ho
    · have h2n := I2.tr_new m h2 o ho
      cases hco : App.Cache.lookup c o with
      | none => rfl
      | some v =>
          have := I1.mono o v hco
          rw [this] at h2n
          exact Option.noConfusion h2n
  tr_done := by
    intro hok2 m hm
    rcases List.mem_append.mp hm with h1 | h2
    · obtain ⟨o, ho, hs⟩ := I1.tr_done hok1 m h1
      obtain ⟨v, hv⟩ := Option.isSome_iff_exists.mp hs
      exact ⟨o, ho, by rw [I2.mono o v hv]; rfl⟩
    · exact I2.tr_done hok2 m h2
  tr_nodup := by
    rw [List.nodup_append]
    refine ⟨I1.tr_nodup, I2.tr_nodup, ?_⟩
    intro m h1 h2
    obtain ⟨o, ho, hs⟩ := I1.tr_done hok1 m h1
    have := I2.tr_new m h2 o ho
    rw [this] at hs
    exact Bool.noConfusion hs
  tr_rank := by
    intro m hm
    rcases List.mem_append.mp hm with h1 | h2
    · exact I1.tr_rank m h1
    · exact I2.tr_rank m h2
  rv_cached := by
    intro e he
    rcases List.mem_append.mp he with h1 | h2
    · have := I1.rv_cached e h1
      exact I2.mono _ _ this
    · exact I2.rv_cached e h2

/-- A node-level invariant from its inputs' composite invariant, for the
outcomes that stop before `populate_output` inserts anything (an input
error propagated, or a failed cast): the trace gains the root in front. -/
theorem App.NodeInv.stop {α : Type} {g : App.MyGraph α} {rank : ℕ → ℕ}
    {nid : ℕ} {c cI : App.Cache α}
    {resI res : Except App.EvalErr (App.MyValueType α)}
    {trI : List ℕ} {rvI : List (ℕ × ℕ × App.MyValueType α)}
    (I : App.InputInv g rank nid c resI cI trI rvI)
    (hres : res.isOk = false) :
    App.NodeInv g rank nid c res cI (nid :: trI) rvI where
  mono := I.mono
  fresh := by
    intro o h
    rcases I.fresh o h with h1 | ⟨m, hm, ho⟩
    · exact Or.inl h1
    · exact Or.inr ⟨m, List.mem_cons_of_mem _ hm, ho⟩
  tr_new := by
    intro m hm
    rcases List.mem_cons.mp hm with h1 | h2
    · exact Or.inl h1
    · exact Or.inr (I.tr_new m h2)
  tr_done := by intro hok; rw [hres] at hok; exact Bool.noConfusion hok
  tr_nodup := by
    rw [List.nodup_cons]
    refine ⟨?_, I.tr_nodup⟩
    intro hmem
    have := I.tr_rank nid hmem
    omega
  tr_rank := by
    intro m hm
    rcases List.mem_cons.mp hm with h1 | h2
    · exact Or.inl h1
    · exact Or.inr (I.tr_rank m h2)
  rv_cached := I.rv_cached

/-- A node-level invariant for the arms that reach `populate_output`
successfully: the built value is inserted under the node's unique "Stream"
output, which was still uncached. -/
theorem App.NodeInv.populate {α : Type} {g : App.MyGraph α} (hW : App.Wf g) {rank : ℕ → ℕ}
    {nid o : ℕ} {c cI : App.Cache α}
    {resI : Except App.EvalErr (App.MyValueType α)}
    {trI : List ℕ} {rvI : List (ℕ × ℕ × App.MyValueType α)} {w : App.MyValueType α}
    (I : App.InputInv g rank nid c resI cI trI rvI)
    (hok : resI.isOk)
    (hout : App.outId? g nid = some o)
    (hpre : App.Cache.lookup c o = none) :
    App.NodeInv g rank nid c (.ok w) ((o, w) :: cI) (nid :: trI) rvI := by
  have hoI : App.Cache.lookup cI o = none := by
    cases hl : App.Cache.lookup cI o with
    | none => rfl
    | some v =>
        have hs : (App.Cache.lookup cI o).isSome := by rw [hl]; rfl
        rcases I.fresh o hs with h1 | ⟨m, hm, hom⟩
        · rw [hpre] at h1; exact Bool.noConfusion h1
        · have hmn : m = nid := App.outId_inj hW hom hout
          subst hmn
          have := I.tr_rank m hm
          omega
  refine
    { mono := ?_, fresh := ?_, tr_new := ?_, tr_done := ?_, tr_nodup := ?_,
      tr_rank := ?_, rv_cached := ?_ }
  · intro o' v h
    have h1 := I.mono o' v h
    rw [App.Cache.lookup_cons]
    have : o ≠ o' := by
      intro he
      rw [← he] at h1
      rw [hoI] at h1
      exact Option.noConfusion h1
    rw [if_neg this]
    exact h1
  · intro o' h
    rw [App.Cache.lookup_cons] at h
    by_cases he : o = o'
    · exact Or.inr ⟨nid, List.mem_cons_self _ _, by rw [← he]; exact hout⟩
    · rw [if_neg he] at h
      rcases I.fresh o' h with h1 | ⟨m, hm, hom⟩
      · exact Or.inl h1
      · exact Or.inr ⟨m, List.mem_cons_of_mem _ hm, hom⟩
  · intro m hm
    rcases List.mem_cons.mp hm with h1 | h2
    · exact Or.inl h1
    · exact Or.inr (I.tr_new m h2)
  · intro _ m hm
    rcases List.mem_cons.mp hm with h1 | h2
    · refine ⟨o, by rw [h1]; exact hout, ?_⟩
      rw [App.Cache.lookup_cons, if_pos rfl]
      rfl
    · obtain ⟨o', ho', hs⟩ := I.tr_done hok m h2
      refine ⟨o', ho', ?_⟩
      rw [App.Cache.lookup_cons]
      by_cases he : o = o'
      · rw [if_pos he]; rfl
      · rw [if_neg he]; exact hs
  · rw [List.nodup_cons]
    refine ⟨?_, I.tr_nodup⟩
    intro hmem
    have := I.tr_rank nid hmem
    omega
  · intro m hm
    rcases List.mem_cons.mp hm with h1 | h2
    · exact Or.inl h1
    · exact Or.inr (I.tr_rank m h2)
  · intro e he
    have h1 := I.rv_cached e he
    rw [App.Cache.lookup_cons]
    have : o ≠ e.2.1 := by
      intro heq
      rw [← heq] at h1
      rw [hoI] at h1
      exact Option.noConfusion h1
    rw [if_neg this]
    exact h1

/-- Invariant for the unreachable-template panic arm. -/
theorem App.NodeInv.panicArm {α : Type} {g : App.MyGraph α} {rank : ℕ → ℕ}
    {nid : ℕ} {c : App.Cache α} :
    App.NodeInv g rank nid c (.error .nodePanic) c [nid] [] where
  mono := fun _ _ h => h
  fresh := fun _ h => Or.inl h
  tr_new := by simp
  tr_done := by simp [Except.isOk, Except.toBool]
  tr_nodup := List.nodup_singleton _
  tr_rank := by simp
  rv_cached := by simp

/-- Invariant for the missing-node panic of `evaluate_node`. -/
theorem App.NodeInv.trivialErr {α : Type} {g : App.MyGraph α} {rank : ℕ → ℕ}
    {nid : ℕ} {c : App.Cache α} {res : Except App.EvalErr (App.MyValueType α)} :
    App.NodeInv g rank nid c res c [] [] where
  mono := fun _ _ h => h
  fresh := fun _ h => Or.inl h
  tr_new := by simp
  tr_done := by simp
  tr_nodup := List.nodup_nil
  tr_rank := by simp
  rv_cached := by simp

/-- Lift the producer's node invariant to the consumer's input invariant
(cache-miss branch of `evaluate_input`). -/
theorem App.InputInv.ofNode {α : Type} {g : App.MyGraph α} {rank : ℕ → ℕ}
    {nid producer : ℕ} {c cP : App.Cache α}
    {resP res : Except App.EvalErr (App.MyValueType α)}
    {trP : List ℕ} {rvP rv : List (ℕ × ℕ × App.MyValueType α)}
    (NI : App.NodeInv g rank producer c resP cP trP rvP)
    (hpre : ∀ o, App.outId? g producer = some o → App.Cache.lookup c o = none)
    (hrlt : rank producer < rank nid)
    (hdone : res.isOk = true → resP.isOk = true)
    (hrv : ∀ e ∈ rv, App.Cache.lookup cP e.2.1 = some e.2.2) :
    App.InputInv g rank nid c res cP trP rv where
  mono := NI.mono
  fresh := NI.fresh
  tr_new := by
    intro m hm o ho
    rcases NI.tr_new m hm with h1 | h2
    · subst h1; exact hpre o ho
    · exact h2 o ho
  tr_done := by
    intro hok m hm
    exact NI.tr_done (hdone hok) m hm
  tr_nodup := NI.tr_nodup
  tr_rank := by
    intro m hm
    rcases NI.tr_rank m hm with h1 | h2
    · rw [h1]; exact hrlt
    · exact lt_trans h2 hrlt
  rv_cached := hrv

/-- Invariant statement for every completed `evaluate_node` call at a
given fuel; the precondition (the root's output is uncached on entry)
holds for the fresh top-level cache and at every recursive call site. -/
def App.NodeStmt {α : Type} (g : App.MyGraph α) (rank : ℕ → ℕ) (f : ℕ) : Prop :=
  ∀ nid c res c' tr rv, App.evaluate_node g f nid c = some (res, c', tr, rv) →
    (∀ o, App.outId? g nid = some o → App.Cache.lookup c o = none) →
    App.NodeInv g rank nid c res c' tr rv

/-- Invariant statement for every completed `evaluate_input` call at a
given fuel. -/
def App.InputStmt {α : Type} (g : App.MyGraph α) (rank : ℕ → ℕ) (f : ℕ) : Prop :=
  ∀ nid pname c res c' tr rv,
    App.evaluate_input g f nid pname c = some (res, c', tr, rv) →
    App.InputInv g rank nid c res c' tr rv

theorem App.input_step {α : Type} {g : App.MyGraph α} {rank : ℕ → ℕ}
    (hW : App.Wf g) (hR : App.RankOk g rank) (f : ℕ)
    (hN : App.NodeStmt g rank f) : App.InputStmt g rank f := by
  intro nid pname c res c' tr rv h
  unfold App.evaluate_input App.evaluate_input_core at h
  cases hn : g.node? nid with
  | none =>
      simp only [hn, Option.some.injEq, Prod.mk.injEq] at h
      obtain ⟨h1, h2, h3, h4⟩ := h
      subst h1; subst h2; subst h3; subst h4
      exact App.InputInv.trivial
  | some node =>
    simp only [hn] at h
    cases hi : node.get_input pname with
    | error e =>
        simp only [hi, Option.some.injEq, Prod.mk.injEq] at h
        obtain ⟨h1, h2, h3, h4⟩ := h
        subst h1; subst h2; subst h3; subst h4
        exact App.InputInv.trivial
    | ok iid =>
      simp only [hi] at h
      cases hc : g.connection iid with
      | none =>
          simp only [hc] at h
          cases hv : g.inputValue? iid with
          | some v =>
              simp only [hv, Option.some.injEq, Prod.mk.injEq] at h
              obtain ⟨h1, h2, h3, h4⟩ := h
              subst h1; subst h2; subst h3; subst h4
              exact App.InputInv.trivial
          | none =>
              simp only [hv, Option.some.injEq, Prod.mk.injEq] at h
              obtain ⟨h1, h2, h3, h4⟩ := h
              subst h1; subst h2; subst h3; subst h4
              exact App.InputInv.trivial
      | some oid =>
        simp only [hc] at h
        cases hl : App.Cache.lookup c oid with
        | some v =>
            simp only [hl, Option.some.injEq, Prod.mk.injEq] at h
            obtain ⟨h1, h2, h3, h4⟩ := h
            subst h1; subst h2; subst h3; subst h4
            exact App.InputInv.hit hl
        | none =>
          simp only [hl] at h
          cases ho : g.outputNode? oid with
          | none =>
              simp only [ho, Option.some.injEq, Prod.mk.injEq] at h
              obtain ⟨h1, h2, h3, h4⟩ := h
              subst h1; subst h2; subst h3; subst h4
              exact App.InputInv.trivial
          | some producer =>
            simp only [ho] at h
            cases hp : App.evaluate_node g f producer c with
            | none => simp only [hp] at h; exact Option.noConfusion h
            | some r =>
              obtain ⟨resP, cP, trP, rvP⟩ := r
              have hpid := App.producer_outId hW ho
              have hpre : ∀ o, App.outId? g producer = some o →
                  App.Cache.lookup c o = none := by
                intro o hoo
                rw [hpid] at hoo
                injection hoo with he
                subst he
                exact hl
              have NI := hN producer c resP cP trP rvP hp hpre
              obtain ⟨p, hpmem, hpname, hpiid⟩ := App.get_input_spec hi
              have hrlt : rank producer < rank nid :=
                App.rank_lt_of_step hR hn hpmem hpiid hc ho
              cases resP with
              | error e =>
                  simp only [hp, Option.some.injEq, Prod.mk.injEq] at h
                  obtain ⟨h1, h2, h3, h4⟩ := h
                  subst h1; subst h2; subst h3; subst h4
                  exact App.InputInv.ofNode NI hpre hrlt (by intro hk; simp [Except.isOk, Except.toBool] at hk)
                    NI.rv_cached
              | ok w =>
                simp only [hp] at h
                cases hl2 : App.Cache.lookup cP oid with
                | some v =>
                    simp only [hl2, Option.some.injEq, Prod.mk.injEq] at h
                    obtain ⟨h1, h2, h3, h4⟩ := h
                    subst h1; subst h2; subst h3; subst h4
                    refine App.InputInv.ofNode NI hpre hrlt (fun _ => rfl) ?_
                    intro e he
                    rcases List.mem_append.mp he with h1 | h2
                    · exact NI.rv_cached e h1
                    · simp only [List.mem_singleton] at h2
                      subst h2
                      exact hl2
                | none =>
                    simp only [hl2, Option.some.injEq, Prod.mk.injEq] at h
                    obtain ⟨h1, h2, h3, h4⟩ := h
                    subst h1; subst h2; subst h3; subst h4
                    exact App.InputInv.ofNode NI hpre hrlt
                      (by intro hk; simp [Except.isOk, Except.toBool] at hk)
                      NI.rv_cached

theorem App.node_step {α : Type} {g : App.MyGraph α} {rank : ℕ → ℕ}
    (hW : App.Wf g) (f : ℕ)
    (hI : App.InputStmt g rank f) : App.NodeStmt g rank (f + 1) := by
  intro nid c res c' tr rv h hpre
  simp only [App.evaluate_node] at h
  cases hn : g.node? nid with
  | none =>
      simp only [hn, Option.some.injEq, Prod.mk.injEq] at h
      obtain ⟨h1, h2, h3, h4⟩ := h
      subst h1; subst h2; subst h3; subst h4
      exact App.NodeInv.trivialErr
  | some node =>
    simp only [hn] at h
    obtain ⟨o, hout, houts, hgeto⟩ := App.outId_of_wf hW hn
    have hpo : ∀ (cI : App.Cache α) (w : App.MyValueType α),
        App.populate_output g cI nid "Stream" w = (.ok w, (o, w) :: cI) := by
      intro cI w
      unfold App.populate_output
      simp only [hn, hgeto]
    cases ht : node.template with
    | sineWave fr sr cur ph =>
        simp only [ht] at h
        cases hI1 : App.evaluate_input_core (App.evaluate_node g f) g nid "Frequency" c with
        | none => simp only [hI1] at h; exact Option.noConfusion h
        | some r1 =>
          obtain ⟨res1, c1, tr1, rv1⟩ := r1
          have I1 := hI nid "Frequency" c res1 c1 tr1 rv1 hI1
          cases res1 with
          | error e =>
              simp only [hI1, Option.some.injEq, Prod.mk.injEq] at h
              obtain ⟨h1, h2, h3, h4⟩ := h
              subst h1; subst h2; subst h3; subst h4
              exact App.NodeInv.stop I1 rfl
          | ok v =>
            cases hcast : v.try_to_const with
            | error e =>
                simp only [hI1, hcast, Option.some.injEq, Prod.mk.injEq] at h
                obtain ⟨h1, h2, h3, h4⟩ := h
                subst h1; subst h2; subst h3; subst h4
                exact App.NodeInv.stop I1 rfl
            | ok freq =>
                simp only [hI1, hcast, hpo, Option.some.injEq, Prod.mk.injEq] at h
                obtain ⟨h1, h2, h3, h4⟩ := h
                subst h1; subst h2; subst h3; subst h4
                exact App.NodeInv.populate hW I1 rfl hout (hpre o hout)
    | modulatedSineWave fr sr m0 cur =>
        simp only [ht] at h
        cases hI1 : App.evaluate_input_core (App.evaluate_node g f) g nid "Frequency" c with
        | none => simp only [hI1] at h; exact Option.noConfusion h
        | some r1 =>
          obtain ⟨res1, c1, tr1, rv1⟩ := r1
          have I1 := hI nid "Frequency" c res1 c1 tr1 rv1 hI1
          cases res1 with
          | error e =>
              simp only [hI1, Option.some.injEq, Prod.mk.injEq] at h
              obtain ⟨h1, h2, h3, h4⟩ := h
              subst h1; subst h2; subst h3; subst h4
              exact App.NodeInv.stop I1 rfl
          | ok v1 =>
            cases hcast : v1.try_to_const with
            | error e =>
                simp only [hI1, hcast, Option.some.injEq, Prod.mk.injEq] at h
                obtain ⟨h1, h2, h3, h4⟩ := h
                subst h1; subst h2; subst h3; subst h4
                exact App.NodeInv.stop I1 rfl
            | ok freq =>
              cases hI2 : App.evaluate_input_core (App.evaluate_node g f) g nid "Modulation" c1 with
              | none => simp only [hI1, hcast, hI2] at h; exact Option.noConfusion h
              | some r2 =>
                obtain ⟨res2, c2, tr2, rv2⟩ := r2
                have I2 := hI nid "Modulation" c1 res2 c2 tr2 rv2 hI2
                have I12 := App.InputInv.seq I1 I2 rfl
                cases res2 with
                | error e =>
                    simp only [hI1, hcast, hI2, Option.some.injEq, Prod.mk.injEq] at h
                    obtain ⟨h1, h2, h3, h4⟩ := h
                    subst h1; subst h2; subst h3; subst h4
                    exact App.NodeInv.stop I12 rfl
                | ok v2 =>
                  cases hcast2 : v2.try_to_stream with
                  | error e =>
                      simp only [hI1, hcast, hI2, hcast2, Option.some.injEq, Prod.mk.injEq] at h
                      obtain ⟨h1, h2, h3, h4⟩ := h
                      subst h1; subst h2; subst h3; subst h4
                      exact App.NodeInv.stop I12 rfl
                  | ok modulator =>
                      simp only [hI1, hcast, hI2, hcast2, hpo,
                        Option.some.injEq, Prod.mk.injEq] at h
                      obtain ⟨h1, h2, h3, h4⟩ := h
                      subst h1; subst h2; subst h3; subst h4
                      exact App.NodeInv.populate hW I12 rfl hout (hpre o hout)
    | mix sr sa sb p =>
        simp only [ht] at h
        cases hI1 : App.evaluate_input_core (App.evaluate_node g f) g nid "A" c with
        | none => simp only [hI1] at h; exact Option.noConfusion h
        | some r1 =>
          obtain ⟨res1, c1, tr1, rv1⟩ := r1
          have I1 := hI nid "A" c res1 c1 tr1 rv1 hI1
          cases res1 with
          | error e =>
              simp only [hI1, Option.some.injEq, Prod.mk.injEq] at h
              obtain ⟨h1, h2, h3, h4⟩ := h
              subst h1; subst h2; subst h3; subst h4
              exact App.NodeInv.stop I1 rfl
          | ok va =>
            cases hcast : va.try_to_stream with
            | error e =>
                simp only [hI1, hcast, Option.some.injEq, Prod.mk.injEq] at h
                obtain ⟨h1, h2, h3, h4⟩ := h
                subst h1; subst h2; subst h3; subst h4
                exact App.NodeInv.stop I1 rfl
            | ok stream_a =>
              cases hI2 : App.evaluate_input_core (App.evaluate_node g f) g nid "B" c1 with
              | none => simp only [hI1, hcast, hI2] at h; exact Option.noConfusion h
              | some r2 =>
                obtain ⟨res2, c2, tr2, rv2⟩ := r2
                have I2 := hI nid "B" c1 res2 c2 tr2 rv2 hI2
                have I12 := App.InputInv.seq I1 I2 rfl
                cases res2 with
                | error e =>
                    simp only [hI1, hcast, hI2, Option.some.injEq, Prod.mk.injEq] at h
                    obtain ⟨h1, h2, h3, h4⟩ := h
                    subst h1; subst h2; subst h3; subst h4
                    exact App.NodeInv.stop I12 rfl
                | ok vb =>
                  cases hcast2 : vb.try_to_stream with
                  | error e =>
                      simp only [hI1, hcast, hI2, hcast2, Option.some.injEq, Prod.mk.injEq] at h
                      obtain ⟨h1, h2, h3, h4⟩ := h
                      subst h1; subst h2; subst h3; subst h4
                      exact App.NodeInv.stop I12 rfl
                  | ok stream_b =>
                      simp only [hI1, hcast, hI2, hcast2, hpo,
                        Option.some.injEq, Prod.mk.injEq] at h
                      obtain ⟨h1, h2, h3, h4⟩ := h
                      subst h1; subst h2; subst h3; subst h4
                      exact App.NodeInv.populate hW I12 rfl hout (hpre o hout)
    | silence sr =>
        simp only [ht, hpo, Option.some.injEq, Prod.mk.injEq] at h
        obtain ⟨h1, h2, h3, h4⟩ := h
        subst h1; subst h2; subst h3; subst h4
        exact App.NodeInv.populate hW
          (App.InputInv.trivial :
            App.InputInv g rank nid c (.ok (.stream (.silence sr))) c [] [])
          rfl hout (hpre o hout)
    | empty sr =>
        simp only [ht, hpo, Option.some.injEq, Prod.mk.injEq] at h
        obtain ⟨h1, h2, h3, h4⟩ := h
        subst h1; subst h2; subst h3; subst h4
        exact App.NodeInv.populate hW
          (App.InputInv.trivial :
            App.InputInv g rank nid c (.ok (.stream (.empty sr))) c [] [])
          rfl hout (hpre o hout)
    | squareWave fr sr cur ph =>
        simp only [ht, Option.some.injEq, Prod.mk.injEq] at h
        obtain ⟨h1, h2, h3, h4⟩ := h
        subst h1; subst h2; subst h3; subst h4
        exact App.NodeInv.panicArm
    | triangleWave fr sr cur ph =>
        simp only [ht, Option.some.injEq, Prod.mk.injEq] at h
        obtain ⟨h1, h2, h3, h4⟩ := h
        subst h1; subst h2; subst h3; subst h4
        exact App.NodeInv.panicArm
    | sawtoothWave fr sr cur ph =>
        simp only [ht, Option.some.injEq, Prod.mk.injEq] at h
        obtain ⟨h1, h2, h3, h4⟩ := h
        subst h1; subst h2; subst h3; subst h4
        exact App.NodeInv.panicArm
    | const sr v =>
        simp only [ht, Option.some.injEq, Prod.mk.injEq] at h
        obtain ⟨h1, h2, h3, h4⟩ := h
        subst h1; subst h2; subst h3; subst h4
        exact App.NodeInv.panicArm
    | envelope a ad dd s sd rd st sr cur =>
        simp only [ht, Option.some.injEq, Prod.mk.injEq] at h
        obtain ⟨h1, h2, h3, h4⟩ := h
        subst h1; subst h2; subst h3; subst h4
        exact App.NodeInv.panicArm
    | perlin sc sr cur =>
        simp only [ht, Option.some.injEq, Prod.mk.injEq] at h
        obtain ⟨h1, h2, h3, h4⟩ := h
        subst h1; subst h2; subst h3; subst h4
        exact App.NodeInv.panicArm
    | whiteNoise sr ri =>
        simp only [ht, Option.some.injEq, Prod.mk.injEq] at h
        obtain ⟨h1, h2, h3, h4⟩ := h
        subst h1; subst h2; subst h3; subst h4
        exact App.NodeInv.panicArm
    | add sr sa sb =>
        simp only [ht, Option.some.injEq, Prod.mk.injEq] at h
        obtain ⟨h1, h2, h3, h4⟩ := h
        subst h1; subst h2; subst h3; subst h4
        exact App.NodeInv.panicArm
    | multiply sr sa sb =>
        simp only [ht, Option.some.injEq, Prod.mk.injEq] at h
        obtain ⟨h1, h2, h3, h4⟩ := h
        subst h1; subst h2; subst h3; subst h4
        exact App.NodeInv.panicArm

/-- The memoization invariant holds for every completed `evaluate_node`
call on a well-formed graph with an acyclicity certificate. -/
theorem App.eval_inv {α : Type} {g : App.MyGraph α} {rank : ℕ → ℕ}
    (hW : App.Wf g) (hR : App.RankOk g rank) :
    ∀ f, App.NodeStmt g rank f := by
  intro f
  induction f with
  | zero =>
      intro nid c res c' tr rv h _
      exact Option.noConfusion h
  | succ f ih => exact App.node_step hW f (App.input_step hW hR f ih)

/-- C2: for every well-formed graph with an acyclicity certificate, within
one top-level `evaluate_node` call driven by a fresh `OutputsCache`, each
output port's value is computed at most once — the construction trace has
no duplicate node — every value handed to a consumer from the cache is
the output of exactly one constructed producer node, and all consumers of
the same output within the pass receive the identical cached value
(clones of one cache entry). -/
theorem claim_C2_thm {α : Type} [LinearOrderedField α] [FloorRing α]
    (g : App.MyGraph α) (rank : ℕ → ℕ) (hW : App.Wf g) (hR : App.RankOk g rank)
    (fuel nid : ℕ) (res : Except App.EvalErr (App.MyValueType α)) (c' : App.Cache α)
    (tr : List ℕ) (rv : List (ℕ × ℕ × App.MyValueType α))
    (h : App.evaluate_node g fuel nid [] = some (res, c', tr, rv)) :
    tr.Nodup ∧
    (∀ i1 i2 o v1 v2, (i1, o, v1) ∈ rv → (i2, o, v2) ∈ rv → v1 = v2) ∧
    (∀ i o v, (i, o, v) ∈ rv →
      ∃ m ∈ tr, App.outId? g m = some o ∧
        ∀ m' ∈ tr, App.outId? g m' = some o → m' = m) := by
  have NI := App.eval_inv hW hR fuel nid [] res c' tr rv h (by intro o _; rfl)
  refine ⟨NI.tr_nodup, ?_, ?_⟩
  · intro i1 i2 o v1 v2 h1 h2
    have e1 : App.Cache.lookup c' o = some v1 := NI.rv_cached _ h1
    have e2 : App.Cache.lookup c' o = some v2 := NI.rv_cached _ h2
    rw [e1] at e2
    injection e2
  · intro i o v hm
    have ec : App.Cache.lookup c' o = some v := NI.rv_cached _ hm
    have hs : (App.Cache.lookup c' o).isSome := by rw [ec]; rfl
    rcases NI.fresh o hs with hin | ⟨m, hmem, hmo⟩
    · simp [App.Cache.lookup] at hin
    · refine ⟨m, hmem, hmo, ?_⟩
      intro m' hm' hmo'
      exact App.outId_inj hW hmo' hmo

/-- Witness graph for C2: node 1's Sine output (port 100) fans out to both
the "A" (port 21) and "B" (port 22) inputs of Mix node 2. -/
def gC2w : App.MyGraph ℚ where
  nodes :=
    [ { id := 1, template := Fm.SineWave.new,
        inputs := [{ iid := 10, name := "Frequency", dataType := .const, value := .const 440 }],
        outputs := [{ oid := 100, name := "Stream" }] },
      { id := 2, template := Fm.Mix.new,
        inputs :=
          [ { iid := 20, name := "p", dataType := .const, value := .const (1 / 2) },
            { iid := 21, name := "A", dataType := .stream, value := .stream Fm.Empty.new },
            { iid := 22, name := "B", dataType := .stream, value := .stream Fm.Empty.new } ],
        outputs := [{ oid := 200, name := "Stream" }] } ]
  connections := [(21, 100), (22, 100)]

/-- Acyclicity certificate for `gC2w`. -/
def rankC2 : ℕ → ℕ := fun nid => if nid = 2 then 1 else 0

/-- The reception trace of evaluating `gC2w`'s Mix node: both consumers of
output 100 receive the same cached Sine value. -/
def rvC2 : List (ℕ × ℕ × App.MyValueType ℚ) :=
  [(21, 100, .stream (.sineWave 440 44100 0 0)), (22, 100, .stream (.sineWave 440 44100 0 0))]

/-- Witness for C2's theorem on the fan-out graph `gC2w`: the construction
trace is [2, 1] (the shared Sine producer is constructed once), and both
receptions of output 100 carry the identical value. -/
theorem claim_C2_witness :
    ([2, 1] : List ℕ).Nodup ∧
    (∀ i1 i2 o v1 v2, (i1, o, v1) ∈ rvC2 → (i2, o, v2) ∈ rvC2 → v1 = v2) ∧
    (∀ i o v, (i, o, v) ∈ rvC2 →
      ∃ m ∈ ([2, 1] : List ℕ), App.outId? gC2w m = some o ∧
        ∀ m' ∈ ([2, 1] : List ℕ), App.outId? gC2w m' = some o → m' = m) :=
  claim_C2_thm gC2w rankC2 (by decide) (by decide) 10 2 _ _ _ _ rfl

theorem App.input_terminates {α : Type} {g : App.MyGraph α} {rank : ℕ → ℕ}
    (hR : App.RankOk g rank) (f : ℕ)
    (hN : ∀ nid c, rank nid < f → (App.evaluate_node g f nid c).isSome) :
    ∀ nid pname c, rank nid ≤ f → (App.evaluate_input g f nid pname c).isSome := by
  intro nid pname c hle
  unfold App.evaluate_input App.evaluate_input_core
  cases hn : g.node? nid with
  | none => simp [hn]
  | some node =>
    simp only [hn]
    cases hi : node.get_input pname with
    | error e => simp [hi]
    | ok iid =>
      simp only [hi]
      cases hc : g.connection iid with
      | none => cases hv : g.inputValue? iid <;> simp [hc, hv]
      | some oid =>
        simp only [hc]
        cases hl : App.Cache.lookup c oid with
        | some v => simp [hl]
        | none =>
          simp only [hl]
          cases ho : g.outputNode? oid with
          | none => simp [ho]
          | some producer =>
            simp only [ho]
            obtain ⟨p, hpmem, hpname, hpiid⟩ := App.get_input_spec hi
            have hrlt : rank producer < rank nid :=
              App.rank_lt_of_step hR hn hpmem hpiid hc ho
            have hs := hN producer c (lt_of_lt_of_le hrlt hle)
            obtain ⟨r, hr⟩ := Option.isSome_iff_exists.mp hs
            obtain ⟨resP, cP, trP, rvP⟩ := r
            cases resP with
            | error e => simp [hr]
            | ok w => cases hl2 : App.Cache.lookup cP oid <;> simp [hr, hl2]

/-- Termination on graphs with an acyclicity certificate: with fuel beyond
the start node's rank, `evaluate_node` always produces a result. -/
theorem App.node_terminates {α : Type} {g : App.MyGraph α} {rank : ℕ → ℕ}
    (hR : App.RankOk g rank) :
    ∀ fuel nid c, rank nid < fuel → (App.evaluate_node g fuel nid c).isSome := by
  intro fuel
  induction fuel with
  | zero => intro nid c hlt; omega
  | succ f ih =>
    intro nid c hlt
    have hInp : ∀ nid' pname c', rank nid' ≤ f →
        (App.evaluate_input g f nid' pname c').isSome :=
      App.input_terminates hR f ih
    have hle : rank nid ≤ f := by omega
    simp only [App.evaluate_node]
    cases hn : g.node? nid with
    | none => simp [hn]
    | some node =>
      cases ht : node.template with
      | sineWave fr sr cur ph =>
          obtain ⟨⟨res1, c1, tr1, rv1⟩, hr1⟩ :=
            Option.isSome_iff_exists.mp (hInp nid "Frequency" c hle)
          simp only [App.evaluate_input] at hr1
          cases res1 with
          | error e => simp [ht, hr1]
          | ok v =>
            cases hcast : v.try_to_const with
            | error e => simp [ht, hr1, hcast]
            | ok freq =>
                rcases hp : App.populate_output g c1 nid "Stream"
                  (.stream (.sineWave freq sr cur ph)) with ⟨r2, c2⟩
                simp [ht, hr1, hcast, hp]
      | modulatedSineWave fr sr m0 cur =>
          obtain ⟨⟨res1, c1, tr1, rv1⟩, hr1⟩ :=
            Option.isSome_iff_exists.mp (hInp nid "Frequency" c hle)
          simp only [App.evaluate_input] at hr1
          cases res1 with
          | error e => simp [ht, hr1]
          | ok v1 =>
            cases hcast : v1.try_to_const with
            | error e => simp [ht, hr1, hcast]
            | ok freq =>
              obtain ⟨⟨res2, c2, tr2, rv2⟩, hr2⟩ :=
                Option.isSome_iff_exists.mp (hInp nid "Modulation" c1 hle)
              simp only [App.evaluate_input] at hr2
              cases res2 with
              | error e => simp [ht, hr1, hcast, hr2]
              | ok v2 =>
                cases hcast2 : v2.try_to_stream with
                | error e => simp [ht, hr1, hcast, hr2, hcast2]
                | ok modulator =>
                    rcases hp : App.populate_output g c2 nid "Stream"
                      (.stream (.modulatedSineWave freq sr modulator cur)) with ⟨r3, c3⟩
                    simp [ht, hr1, hcast, hr2, hcast2, hp]
      | mix sr sa sb p =>
          obtain ⟨⟨res1, c1, tr1, rv1⟩, hr1⟩ :=
            Option.isSome_iff_exists.mp (hInp nid "A" c hle)
          simp only [App.evaluate_input] at hr1
          cases res1 with
          | error e => simp [ht, hr1]
          | ok va =>
            cases hcast : va.try_to_stream with
            | error e => simp [ht, hr1, hcast]
            | ok stream_a =>
              obtain ⟨⟨res2, c2, tr2, rv2⟩, hr2⟩ :=
                Option.isSome_iff_exists.mp (hInp nid "B" c1 hle)
              simp only [App.evaluate_input] at hr2
              cases res2 with
              | error e => simp [ht, hr1, hcast, hr2]
              | ok vb =>
                cases hcast2 : vb.try_to_stream with
                | error e => simp [ht, hr1, hcast, hr2, hcast2]
                | ok stream_b =>
                    rcases hp : App.populate_output g c2 nid "Stream"
                      (.stream (.mix sr stream_a stream_b p)) with ⟨r3, c3⟩
                    simp [ht, hr1, hcast, hr2, hcast2, hp]
      | silence sr =>
          rcases hp : App.populate_output g c nid "Stream"
            (.stream (.silence sr)) with ⟨r1, c1⟩
          simp [ht, hp]
      | empty sr =>
          rcases hp : App.populate_output g c nid "Stream"
            (.stream (.empty sr)) with ⟨r1, c1⟩
          simp [ht, hp]
      | squareWave fr sr cur ph => simp [ht]
      | triangleWave fr sr cur ph => simp [ht]
      | sawtoothWave fr sr cur ph => simp [ht]
      | const sr v => simp [ht]
      | envelope a ad dd s sd rd st sr cur => simp [ht]
      | perlin sc sr cur => simp [ht]
      | whiteNoise sr ri => simp [ht]
      | add sr sa sb => simp [ht]
      | multiply sr sa sb => simp [ht]

/-- When a Mix node's first-resolved input "A" is connected to the node's
own output, the evaluator recurses on itself with an unchanged (still
fresh) cache: no amount of fuel produces a result — the Rust code never
terminates. -/
theorem App.selfloop_diverges {α : Type} {g : App.MyGraph α} {nid : ℕ} {node : App.Node α}
    {sr : ℕ} {sa sb : Fm.Stream α} {p : α} {iid oid : ℕ}
    (hnode : g.node? nid = some node)
    (htemp : node.template = .mix sr sa sb p)
    (hin : node.get_input "A" = .ok iid)
    (hconn : g.connection iid = some oid)
    (hout : g.outputNode? oid = some nid) :
    ∀ fuel, App.evaluate_node g fuel nid [] = none := by
  intro fuel
  induction fuel with
  | zero => rfl
  | succ f ih =>
      simp only [App.evaluate_node, hnode, htemp, App.evaluate_input_core, hin, hconn, hout]
      simp [App.Cache.lookup, ih]

/-- C9 (amended): (i) on every graph with an acyclicity certificate (a
rank function strictly decreasing along consumer→producer connections),
`evaluate_node` terminates with a result — Ok or Err — from any cache,
with fuel beyond the start node's rank; (ii) the evaluator performs no
cycle detection, and when the recursive input resolution reaches a cycle
it does not terminate: whenever the first-resolved input of a Mix node is
connected to the node's own output, no amount of fuel yields a result.
(The original universally quantified form — any cycle anywhere in the
transitive inputs prevents termination — is refuted by `claim_C9_cex`,
where an error on an earlier input aborts evaluation before the cycle is
reached.) -/
theorem claim_C9_thm {α : Type} (g : App.MyGraph α) (rank : ℕ → ℕ) :
    (App.RankOk g rank →
      ∀ fuel nid c, rank nid < fuel → (App.evaluate_node g fuel nid c).isSome) ∧
    (∀ nid node sr sa sb p iid oid,
      g.node? nid = some node → node.template = .mix sr sa sb p →
      node.get_input "A" = .ok iid → g.connection iid = some oid →
      g.outputNode? oid = some nid →
      ∀ fuel, App.evaluate_node g fuel nid [] = none) :=
  ⟨fun hR => App.node_terminates hR,
   fun _ _ _ _ _ _ _ _ h1 h2 h3 h4 h5 =>
     App.selfloop_diverges h1 h2 h3 h4 h5⟩

/-- A graph whose single Mix node's "A" input (port 11) is connected to
the node's own "Stream" output (port 100). -/
def gLoop : App.MyGraph ℚ where
  nodes :=
    [ { id := 1, template := Fm.Mix.new,
        inputs :=
          [ { iid := 10, name := "p", dataType := .const, value := .const (1 / 2) },
            { iid := 11, name := "A", dataType := .stream, value := .stream Fm.Empty.new },
            { iid := 12, name := "B", dataType := .stream, value := .stream Fm.Empty.new } ],
        outputs := [{ oid := 100, name := "Stream" }] } ]
  connections := [(11, 100)]

/-- Acyclicity certificate for `gC5` (node 1 consumes node 2's output). -/
def rankC5w : ℕ → ℕ := fun n => if n = 1 then 1 else 0

/-- Witness for C9's theorem: on the acyclic `gC5` the evaluator delivers
a result, and on the self-looping `gLoop` it delivers none at fuel 7
(`selfloop_diverges` gives this for every fuel). -/
theorem claim_C9_witness :
    (App.evaluate_node gC5 6 1 []).isSome ∧
    App.evaluate_node gLoop 7 1 [] = none := by
  constructor
  · exact (claim_C9_thm gC5 rankC5w).1 (by decide) 6 1 [] (by decide)
  · exact (claim_C9_thm gLoop (fun _ => 0)).2 1 _ 44100 Fm.Empty.new Fm.Empty.new (1 / 2)
      11 100 rfl rfl rfl rfl rfl 7
